import Mathlib

/-!
# Verification of the go-yamlvalidator schema validation engine

A shallow embedding, in Lean 4, of the core of the `yamlvalidator` Go
package (file `validator.go` plus the bundled `RangeValidator` from
`pkg/valuevalidator/range.go`), together with theorems settling the
frozen claims about its natural-language specification.

Modelling conventions:
* Go slices become `List`, Go `*T` (nullable pointers) become `Option T`,
  Go strings become Lean `String`.
* Go `map[string]V` values that the code builds by insertion and then
  reads (`foundKeys`, `keyNodes`, the `seen` index map of the
  de-duplication pass) are modelled as functional updates over an
  association list, with last-write-wins lookup, which is exactly the
  observable behaviour of a Go map under insert-then-lookup.
* The recursive tree walk `validateNode` terminates in Go because the
  document tree is finite; the embedding makes this explicit with a
  fuel parameter that is decremented once per `validateNode` entry.
  Any fuel at least the document depth reproduces the Go behaviour.
* Calls into the Go standard library (`strconv.ParseInt`,
  `strconv.ParseFloat`) are modelled by executable Lean parsers over
  exact integers/rationals; the doc comment of each model records the
  (claim-irrelevant) corners where the model simplifies the library.
-/

namespace YamlValidator

/-! ## Error levels and diagnostics (validator.go, "Error Levels and Collection") -/

/-- Model of `ErrorLevel` from validator.go: `LevelWarning = iota` (0), `LevelError` (1). -/
inductive ErrorLevel where
  | warning
  | error
deriving DecidableEq, Repr

/-- The numeric value of the Go constant (`LevelWarning = 0`, `LevelError = 1`),
used by the position sort, which compares levels with `>`. -/
def ErrorLevel.toNat : ErrorLevel → Nat
  | .warning => 0
  | .error => 1

/-- Model of `ValidationError` from validator.go: a single validation issue. -/
structure ValidationError where
  level : ErrorLevel
  path : String
  line : Nat
  column : Nat
  message : String
  got : String
  expected : String
deriving DecidableEq, Repr

/-- Model of `ErrorCollector` from validator.go: accumulates errors and warnings
in two insertion-ordered buckets. -/
structure ErrorCollector where
  errors : List ValidationError
  warnings : List ValidationError
deriving DecidableEq, Repr

/-- Model of `NewErrorCollector`. -/
def NewErrorCollector : ErrorCollector := ⟨[], []⟩

/-- Model of `ErrorCollector.Add`: route a diagnostic into the bucket selected by its level. -/
def ErrorCollector.Add (c : ErrorCollector) (e : ValidationError) : ErrorCollector :=
  if e.level = .error then { c with errors := c.errors ++ [e] }
  else { c with warnings := c.warnings ++ [e] }

/-- Model of `ErrorCollector.HasErrors`. -/
def ErrorCollector.HasErrors (c : ErrorCollector) : Bool :=
  c.errors.length > 0

/-- Model of `ErrorCollector.All`: all errors followed by all warnings. -/
def ErrorCollector.All (c : ErrorCollector) : List ValidationError :=
  c.errors ++ c.warnings

/-! ## Validation context (validator.go, "Validation Context") -/

/-- Model of `ValidationContext` from validator.go: per-run configuration plus the
mutable run state (the embedded collector and the stopped flag).  The Go
struct holds a `*ErrorCollector`; here the collector is inlined, since the
pointer is never shared outside the run. -/
structure Ctx where
  strictKeys : Bool
  stopOnFirst : Bool
  strictTypes : Bool
  yaml11Booleans : Bool
  collector : ErrorCollector
  stopped : Bool
deriving DecidableEq, Repr

/-- Model of `NewValidationContext` (all options default to false, empty collector). -/
def NewValidationContext : Ctx :=
  ⟨false, false, false, false, NewErrorCollector, false⟩

/-- Model of `ValidationContext.AddError`: a no-op once stopped; otherwise adds the
diagnostic and, when `StopOnFirst` is set and the diagnostic is an Error,
sets the stopped flag. -/
def Ctx.AddError (ctx : Ctx) (e : ValidationError) : Ctx :=
  if ctx.stopped then ctx
  else
    let ctx' := { ctx with collector := ctx.collector.Add e }
    if ctx.stopOnFirst ∧ e.level = .error then { ctx' with stopped := true }
    else ctx'

/-- Model of `ValidationContext.IsStopped`. -/
def Ctx.IsStopped (ctx : Ctx) : Bool := ctx.stopped

/-- The concrete context used by the C8 witness. -/
def c8Ctx : Ctx := { NewValidationContext with stopOnFirst := true }

/-- The concrete diagnostic used by the C8 witness. -/
def c8Err : ValidationError := ⟨.error, "a", 1, 1, "m", "", ""⟩

/-! ## The document node model (yaml.v3 `Node`, the external parser's shape)

`yaml.Node` is a struct with `Kind`, `Tag`, `Value`, `Line`, `Column`,
`Content []*Node` and `Alias *Node`.  Mapping nodes store their key/value
pairs flattened in `Content`. -/

/-- The node kinds of yaml.v3 (`DocumentNode`, `SequenceNode`, `MappingNode`,
`ScalarNode`, `AliasNode`). -/
inductive YKind where
  | document
  | sequence
  | mapping
  | scalar
  | aliasNode
deriving DecidableEq, Repr

/-- A yaml.v3 `Node`: kind, tag, raw value, 1-based line/column (0 = unknown),
flattened children, and the resolved alias target (`Alias *Node`, `none` when
the pointer is nil, i.e. the alias is unresolved). -/
inductive YNode where
  | mk (kind : YKind) (tag : String) (value : String) (line : Nat) (column : Nat)
      (content : List YNode) (aliasTarget : Option YNode)

/-- Model of `node.Kind`. -/
def YNode.kind : YNode → YKind
  | .mk k _ _ _ _ _ _ => k

/-- Model of `node.Tag`. -/
def YNode.tag : YNode → String
  | .mk _ t _ _ _ _ _ => t

/-- Model of `node.Value`. -/
def YNode.value : YNode → String
  | .mk _ _ v _ _ _ _ => v

/-- Model of `node.Line`. -/
def YNode.line : YNode → Nat
  | .mk _ _ _ l _ _ _ => l

/-- Model of `node.Column`. -/
def YNode.column : YNode → Nat
  | .mk _ _ _ _ c _ _ => c

/-- Model of `node.Content`. -/
def YNode.content : YNode → List YNode
  | .mk _ _ _ _ _ cs _ => cs

/-- Model of `node.Alias`. -/
def YNode.aliasTarget : YNode → Option YNode
  | .mk _ _ _ _ _ _ a => a

/-- The transient `kvPair` struct of validator.go (key node, value node). -/
abbrev kvPair := YNode × YNode

/-! ## Merge-key expansion (validator.go, `expandMappingWithMerges`) -/

/-- Model of `mappingToPairs` from validator.go: pair up a mapping's flattened
`Content` (`Content[i]`, `Content[i+1]`).  yaml.v3 guarantees an even
number of children for a mapping; on an (impossible) odd tail, Go would
panic on the out-of-range index, and the model drops the dangling key. -/
def mappingToPairs : List YNode → List kvPair
  | k :: v :: rest => (k, v) :: mappingToPairs rest
  | _ => []

mutual

/-- Model of `extractMergePairs` from validator.go: the key/value pairs a merge-key
value contributes.  An alias contributes its resolved target's pairs (an
unresolved alias contributes nothing), a mapping its literal pairs, a
sequence the concatenation of each element's contribution, and anything
else nothing. -/
def extractMergePairs : YNode → List kvPair
  | .mk .aliasNode _ _ _ _ _ (some t) => extractMergePairs t
  | .mk .mapping _ _ _ _ content _ => mappingToPairs content
  | .mk .sequence _ _ _ _ content _ => extractMergeSeq content
  | _ => []

/-- The `for _, item := range val.Content` loop of the sequence case of
`extractMergePairs`. -/
def extractMergeSeq : List YNode → List kvPair
  | [] => []
  | x :: xs => extractMergePairs x ++ extractMergeSeq xs

end

/-- The pair-collection loop of `expandMappingWithMerges`: walk `Content`
two at a time, splicing in `extractMergePairs` for keys literally named
`<<` and keeping every other pair as written. -/
def collectPairs : List YNode → List kvPair
  | k :: v :: rest =>
      (if k.value = "<<" then extractMergePairs v else [(k, v)]) ++ collectPairs rest
  | _ => []

/-- The lookup function of the Go map `seen` after one more assignment
`seen[p.key.Value] = p.idx`. -/
def updSeen (f : String → Option Nat) (p : Nat × kvPair) : String → Option Nat :=
  fun k => if k = p.2.1.value then some p.1 else f k

/-- Model of `dedupePairsKeepLast` from validator.go: build `seen`, the map from key
text to the index of its last occurrence, then keep exactly the pairs whose
index is recorded in `seen`. -/
def dedupePairsKeepLast (pairs : List kvPair) : List kvPair :=
  let seen : String → Option Nat := pairs.enum.foldl updSeen (fun _ => none)
  (pairs.enum.filter (fun p => seen p.2.1.value = some p.1)).map Prod.snd

/-- Model of `expandMappingWithMerges` from validator.go: non-mappings expand to
nothing; a mapping's collected pairs are de-duplicated keeping the last
occurrence of each key. -/
def expandMappingWithMerges (node : YNode) : List kvPair :=
  if node.kind = .mapping then dedupePairsKeepLast (collectPairs node.content) else []

/-! ### The spec's description of merge expansion (for claim C1)

The spec describes the pair-collection phase operationally exactly as the
code performs it (replace each `<<` entry by its value's contributed pairs,
concatenate in source order), so that phase (`collectPairs`) is shared;
the de-duplication below is written from the spec's words — "for each key
exactly the last occurrence is kept" — independently of the index-map
mechanics the code uses. -/

/-- Modelled from the spec: keep a pair exactly when no later pair carries
the same key, so for each key exactly the last occurrence survives, in
position order. -/
def specKeepLast : List kvPair → List kvPair
  | [] => []
  | kv :: rest =>
      if rest.any (fun kv2 => kv2.1.value = kv.1.value) then specKeepLast rest
      else kv :: specKeepLast rest

/-- Modelled from the spec: merge-key expansion as the spec words it. -/
def specExpandMapping (node : YNode) : List kvPair :=
  if node.kind = .mapping then specKeepLast (collectPairs node.content) else []

/-! ### The C1 example: `{<<: *ref, host: "x"}` with `*ref` resolving to
`{timeout: 30, host: "y"}` -/

/-- Key node `timeout` inside the aliased map. -/
def timeoutK : YNode := .mk .scalar "!!str" "timeout" 10 3 [] none

/-- Value node `30` inside the aliased map. -/
def timeoutV : YNode := .mk .scalar "!!int" "30" 10 12 [] none

/-- Key node `host` inside the aliased map. -/
def hostKmerged : YNode := .mk .scalar "!!str" "host" 11 3 [] none

/-- Value node `"y"` inside the aliased map. -/
def hostVmerged : YNode := .mk .scalar "!!str" "y" 11 9 [] none

/-- The anchored map `{timeout: 30, host: "y"}` that `*ref` resolves to. -/
def refTarget : YNode :=
  .mk .mapping "!!map" "" 10 3 [timeoutK, timeoutV, hostKmerged, hostVmerged] none

/-- The merge key node `<<`. -/
def mergeKeyNode : YNode := .mk .scalar "!!merge" "<<" 20 1 [] none

/-- The alias node `*ref`, resolved to `refTarget`. -/
def refAlias : YNode := .mk .aliasNode "" "ref" 20 5 [] (some refTarget)

/-- The explicit key node `host` of the outer map. -/
def hostKexplicit : YNode := .mk .scalar "!!str" "host" 21 1 [] none

/-- The explicit value node `"x"` of the outer map. -/
def hostVexplicit : YNode := .mk .scalar "!!str" "x" 21 7 [] none

/-- The outer map `{<<: *ref, host: "x"}`. -/
def exampleMergeMap : YNode :=
  .mk .mapping "!!map" "" 20 1 [mergeKeyNode, refAlias, hostKexplicit, hostVexplicit] none

/-! ## Node types (validator.go, "Node Types") -/

/-- Model of `NodeType` from validator.go. -/
inductive NodeType where
  | any
  | null
  | string
  | int
  | float
  | bool
  | map
  | sequence
deriving DecidableEq, Repr

/-- Model of `NodeType.String()` from validator.go. -/
def NodeType.toGoString : NodeType → String
  | .any => "any"
  | .null => "null"
  | .string => "string"
  | .int => "integer"
  | .float => "float"
  | .bool => "boolean"
  | .map => "map"
  | .sequence => "sequence"

/-! ## Models of the Go standard library number parsers -/

/-- The numeric value of a digit character, for bases up to 36
(Go `strconv` accepts `0-9`, `a-z`, `A-Z`). -/
def digitVal (c : Char) : Option Nat :=
  if '0' ≤ c ∧ c ≤ '9' then some (c.toNat - '0'.toNat)
  else if 'a' ≤ c ∧ c ≤ 'z' then some (c.toNat - 'a'.toNat + 10)
  else if 'A' ≤ c ∧ c ≤ 'Z' then some (c.toNat - 'A'.toNat + 10)
  else none

/-- Accumulate digit characters in the given base; `none` on any character
that is not a digit of the base. -/
def parseDigitsAux (base : Nat) : List Char → Nat → Option Nat
  | [], acc => some acc
  | c :: cs, acc =>
      match digitVal c with
      | some d => if d < base then parseDigitsAux base cs (acc * base + d) else none
      | none => none

/-- A non-empty all-digit string in the given base, as a natural number. -/
def parseDigits (base : Nat) (cs : List Char) : Option Nat :=
  if cs.isEmpty then none else parseDigitsAux base cs 0

/-- Modelled from the Go standard library: `strings.ToLower`, character by
character (Go lowers full Unicode; every claim-relevant value is ASCII,
where the two agree). -/
def goToLower (s : String) : String :=
  String.mk (s.data.map Char.toLower)

/-- Modelled from the Go standard library: `strconv.ParseInt(s, base, 64)`.
Optional sign; with `base = 0` the base is read off a `0b`/`0o`/`0x` prefix
(legacy leading-zero octal included); the value must fit in a signed 64-bit
integer, otherwise Go reports a range error, modelled as `none`.
Digit-separator underscores (which Go accepts only when `base = 0`) are not
modelled; no claim exercises them. -/
def go_parseInt (s : String) (base : Nat) : Option Int :=
  match s.data with
  | [] => none
  | c0 :: rest0 =>
    let cs : List Char := if c0 = '+' ∨ c0 = '-' then rest0 else c0 :: rest0
    let neg : Bool := c0 = '-'
    let pr : Nat × List Char :=
      if base = 0 then
        match cs with
        | '0' :: x :: rest =>
            if x = 'x' ∨ x = 'X' then (16, rest)
            else if x = 'o' ∨ x = 'O' then (8, rest)
            else if x = 'b' ∨ x = 'B' then (2, rest)
            else (8, x :: rest)
        | _ => (10, cs)
      else (base, cs)
    match parseDigits pr.1 pr.2 with
    | none => none
    | some v =>
        let iv : Int := if neg then -(v : Int) else (v : Int)
        if -(2 ^ 63) ≤ iv ∧ iv ≤ 2 ^ 63 - 1 then some iv else none

/-- An exact (not necessarily normalized) rational with positive intended
denominator, used to model finite float64 values: comparisons are by exact
cross-multiplication, so no rounding is modelled (every claim-relevant value
is exactly representable in binary64, where the two agree). -/
structure FRat where
  num : Int
  den : Nat
deriving DecidableEq, Repr

/-- The rational `i / 1`. -/
def FRat.ofInt (i : Int) : FRat := ⟨i, 1⟩

/-- Exact `<` on rationals with positive denominators, by
cross-multiplication. -/
def FRat.lt (a b : FRat) : Bool :=
  a.num * (b.den : Int) < b.num * (a.den : Int)

/-- Negation. -/
def FRat.neg (a : FRat) : FRat := ⟨-a.num, a.den⟩

/-- Division by a power of ten. -/
def FRat.divPow10 (a : FRat) (k : Nat) : FRat := ⟨a.num, a.den * 10 ^ k⟩

/-- Multiplication by a power of ten. -/
def FRat.mulPow10 (a : FRat) (k : Nat) : FRat := ⟨a.num * (10 ^ k : Nat), a.den⟩

/-- Modelled from the Go standard library: `strconv.ParseFloat(s, 64)`,
restricted to finite decimal forms (optional sign, decimal mantissa with
optional fraction, optional decimal exponent), returning the exact rational
value.  Go additionally accepts `inf`/`infinity`/`nan` spellings and hex
mantissas with a mandatory `p` exponent, and rounds to the nearest binary64;
no claim reaches those corners, and every claim-relevant value is exactly
representable. -/
def go_parseFloat (s : String) : Option FRat :=
  let isDigit : Char → Bool := fun c => '0' ≤ c ∧ c ≤ '9'
  let digitsToNat : List Char → Nat :=
    fun cs => cs.foldl (fun acc c => acc * 10 + (c.toNat - '0'.toNat)) 0
  match s.data with
  | [] => none
  | c0 :: rest0 =>
    let cs : List Char := if c0 = '+' ∨ c0 = '-' then rest0 else c0 :: rest0
    let neg : Bool := c0 = '-'
    let ip := cs.takeWhile isDigit
    let afterIp := cs.dropWhile isDigit
    let fp : List Char :=
      match afterIp with
      | '.' :: rest => rest.takeWhile isDigit
      | _ => []
    let afterMant : List Char :=
      match afterIp with
      | '.' :: rest => rest.dropWhile isDigit
      | other => other
    if ip.isEmpty ∧ fp.isEmpty then none
    else
      let mant : FRat := ⟨(digitsToNat (ip ++ fp) : Int), 10 ^ fp.length⟩
      let signed : FRat → FRat := fun q => if neg then q.neg else q
      match afterMant with
      | [] => some (signed mant)
      | e :: rest =>
          if e = 'e' ∨ e = 'E' then
            let erest : List Char :=
              match rest with
              | '+' :: r => r
              | '-' :: r => r
              | r => r
            let eneg : Bool :=
              match rest with
              | '-' :: _ => true
              | _ => false
            let ed := erest.takeWhile isDigit
            let eafter := erest.dropWhile isDigit
            if ed.isEmpty ∨ ¬eafter.isEmpty then none
            else if eneg then some (signed (mant.divPow10 (digitsToNat ed)))
            else some (signed (mant.mulPow10 (digitsToNat ed)))
          else none

/-! ## Scalar type sniffing (validator.go, `looksLikeInt` / `looksLikeFloat`) -/

/-- Model of `looksLikeInt` from validator.go: after stripping one optional sign,
accept hex (`0x`/`0X`, parsed with base 0 on the prefixed string), YAML 1.2
octal (`0o`/`0O`, base 8 on the remainder), binary (`0b`/`0B`, base 2 on the
remainder) — each requiring length > 2 — and otherwise plain decimal.
Legacy leading-zero octal is parsed as decimal here. -/
def looksLikeInt (s : String) : Bool :=
  match s.data with
  | [] => false
  | c0 :: rest0 =>
    let cs : List Char := if c0 = '+' ∨ c0 = '-' then rest0 else c0 :: rest0
    if cs.isEmpty then false
    else
      match cs with
      | '0' :: x :: d :: ds =>
          if x = 'x' ∨ x = 'X' then (go_parseInt (String.mk cs) 0).isSome
          else if x = 'o' ∨ x = 'O' then (go_parseInt (String.mk (d :: ds)) 8).isSome
          else if x = 'b' ∨ x = 'B' then (go_parseInt (String.mk (d :: ds)) 2).isSome
          else (go_parseInt (String.mk cs) 10).isSome
      | _ => (go_parseInt (String.mk cs) 10).isSome

/-- Model of `looksLikeFloat` from validator.go: special infinity/NaN spellings, else
require a `.`, `e` or `E` and a successful float parse. -/
def looksLikeFloat (s : String) : Bool :=
  let lower := goToLower s
  if lower = ".inf" ∨ lower = "-.inf" ∨ lower = "+.inf" ∨ lower = ".nan" then true
  else if ¬(s.data.any (fun c => c = '.' ∨ c = 'e' ∨ c = 'E')) then false
  else (go_parseFloat s).isSome

/-! ## Type inference (validator.go, `inferType` / `inferScalarType`) -/

/-- Model of `inferScalarType` from validator.go: trust the parser's tag first (with
the YAML 1.1 boolean re-check for `!!str`), fall back to `string` under
StrictTypes, otherwise pattern-parse: null forms, YAML 1.2 booleans,
YAML 1.1 booleans when enabled, ints, floats, default string. -/
def inferScalarType (node : YNode) (ctx : Ctx) : NodeType :=
  if node.tag = "!!str" then
    if ctx.yaml11Booleans then
      let lower := goToLower node.value
      if lower = "y" ∨ lower = "yes" ∨ lower = "true" ∨ lower = "on" ∨
          lower = "n" ∨ lower = "no" ∨ lower = "false" ∨ lower = "off" then .bool
      else .string
    else .string
  else if node.tag = "!!int" then .int
  else if node.tag = "!!float" then .float
  else if node.tag = "!!bool" then .bool
  else if node.tag = "!!null" then .null
  else if ctx.strictTypes then .string
  else
    let val := node.value
    let lower := goToLower val
    if lower = "null" ∨ val = "~" then .null
    else if lower = "true" ∨ lower = "false" then .bool
    else if ctx.yaml11Booleans ∧
        (lower = "y" ∨ lower = "yes" ∨ lower = "true" ∨ lower = "on" ∨
          lower = "n" ∨ lower = "no" ∨ lower = "false" ∨ lower = "off") then .bool
    else if looksLikeInt val then .int
    else if looksLikeFloat val then .float
    else .string

/-- Model of `inferType` from validator.go: maps and sequences map directly, scalars
via `inferScalarType`, aliases through their resolved target, everything
else (including an unresolved alias) is `any`. -/
def inferType : YNode → Ctx → NodeType
  | .mk .mapping _ _ _ _ _ _, _ => .map
  | .mk .sequence _ _ _ _ _ _, _ => .sequence
  | .mk .scalar t v l c cs a, ctx => inferScalarType (.mk .scalar t v l c cs a) ctx
  | .mk .aliasNode _ _ _ _ _ (some t), ctx => inferType t ctx
  | .mk .aliasNode _ _ _ _ _ none, _ => .any
  | .mk .document _ _ _ _ _ _, _ => .any

/-- Model of `describeNode` from validator.go.  The 20-character truncation is
modelled over characters (Go slices bytes) and the `%q` quoting without
escape sequences; no claim inspects these strings beyond fixed messages. -/
def describeNode (node : YNode) : String :=
  match node.kind with
  | .mapping => "map"
  | .sequence => "sequence (len=" ++ toString node.content.length ++ ")"
  | .scalar =>
      let val := node.value
      let val := if val.length > 20 then String.mk (val.data.take 20) ++ "..." else val
      let tag :=
        match node.tag.data with
        | '!' :: '!' :: rest => String.mk rest
        | _ => node.tag
      let tag := if tag = "" then "scalar" else tag
      tag ++ " \"" ++ val ++ "\""
  | _ => node.tag

/-! ## Schemas (validator.go, `FieldSchema` and friends) -/

/-- Model of `UnknownKeyPolicy` from validator.go. -/
inductive UnknownKeyPolicy where
  | inherit
  | error
  | warn
  | ignore
deriving DecidableEq, Repr

/-- Model of `ConditionalRule` from validator.go. -/
structure ConditionalRule where
  conditionField : String
  conditionValue : String
  thenRequired : List String
  thenForbidden : List String

/-- Model of `FieldSchema` from validator.go.  `AllowedKeys map[string]*FieldSchema`
is modelled as an association list (Go map iteration order is unspecified;
the model fixes list order).  The pluggable `ValueValidator` and
`KeyValidator` interfaces are modelled as their single methods.  `Default
interface{}` is modelled as an optional pre-rendered `%v` string, which is
all the engine uses it for. -/
inductive FieldSchema where
  | mk
      (type : NodeType)
      (required : Bool)
      (nullable : Bool)
      (deprecated : String)
      (description : String)
      (defaultRepr : Option String)
      (allowedKeys : List (String × FieldSchema))
      (additionalProperties : Option FieldSchema)
      (unknownKeyPolicy : UnknownKeyPolicy)
      (keyValidators : List (String → YNode → String → Ctx → Ctx))
      (itemSchema : Option FieldSchema)
      (minItems : Option Int)
      (maxItems : Option Int)
      (validators : List (YNode → String → Ctx → Ctx))
      (anyOf : List (List String))
      (exactlyOneOf : List String)
      (mutuallyExclusive : List String)
      (conditions : List ConditionalRule)

/-- Model of `schema.Type`. -/
def FieldSchema.type : FieldSchema → NodeType
  | .mk t _ _ _ _ _ _ _ _ _ _ _ _ _ _ _ _ _ => t

/-- Model of `schema.Required`. -/
def FieldSchema.required : FieldSchema → Bool
  | .mk _ r _ _ _ _ _ _ _ _ _ _ _ _ _ _ _ _ => r

/-- Model of `schema.Nullable`. -/
def FieldSchema.nullable : FieldSchema → Bool
  | .mk _ _ n _ _ _ _ _ _ _ _ _ _ _ _ _ _ _ => n

/-- Model of `schema.Deprecated`. -/
def FieldSchema.deprecated : FieldSchema → String
  | .mk _ _ _ d _ _ _ _ _ _ _ _ _ _ _ _ _ _ => d

/-- Model of `schema.Default`, as its rendered presence. -/
def FieldSchema.defaultRepr : FieldSchema → Option String
  | .mk _ _ _ _ _ d _ _ _ _ _ _ _ _ _ _ _ _ => d

/-- Model of `schema.AllowedKeys`. -/
def FieldSchema.allowedKeys : FieldSchema → List (String × FieldSchema)
  | .mk _ _ _ _ _ _ ks _ _ _ _ _ _ _ _ _ _ _ => ks

/-- Model of `schema.AdditionalProperties`. -/
def FieldSchema.additionalProperties : FieldSchema → Option FieldSchema
  | .mk _ _ _ _ _ _ _ ap _ _ _ _ _ _ _ _ _ _ => ap

/-- Model of `schema.UnknownKeyPolicy`. -/
def FieldSchema.unknownKeyPolicy : FieldSchema → UnknownKeyPolicy
  | .mk _ _ _ _ _ _ _ _ p _ _ _ _ _ _ _ _ _ => p

/-- Model of `schema.KeyValidators`. -/
def FieldSchema.keyValidators : FieldSchema → List (String → YNode → String → Ctx → Ctx)
  | .mk _ _ _ _ _ _ _ _ _ kv _ _ _ _ _ _ _ _ => kv

/-- Model of `schema.ItemSchema`. -/
def FieldSchema.itemSchema : FieldSchema → Option FieldSchema
  | .mk _ _ _ _ _ _ _ _ _ _ i _ _ _ _ _ _ _ => i

/-- Model of `schema.MinItems`. -/
def FieldSchema.minItems : FieldSchema → Option Int
  | .mk _ _ _ _ _ _ _ _ _ _ _ mn _ _ _ _ _ _ => mn

/-- Model of `schema.MaxItems`. -/
def FieldSchema.maxItems : FieldSchema → Option Int
  | .mk _ _ _ _ _ _ _ _ _ _ _ _ mx _ _ _ _ _ => mx

/-- Model of `schema.Validators`. -/
def FieldSchema.validators : FieldSchema → List (YNode → String → Ctx → Ctx)
  | .mk _ _ _ _ _ _ _ _ _ _ _ _ _ v _ _ _ _ => v

/-- Model of `schema.AnyOf`. -/
def FieldSchema.anyOf : FieldSchema → List (List String)
  | .mk _ _ _ _ _ _ _ _ _ _ _ _ _ _ a _ _ _ => a

/-- Model of `schema.ExactlyOneOf`. -/
def FieldSchema.exactlyOneOf : FieldSchema → List String
  | .mk _ _ _ _ _ _ _ _ _ _ _ _ _ _ _ e _ _ => e

/-- Model of `schema.MutuallyExclusive`. -/
def FieldSchema.mutuallyExclusive : FieldSchema → List String
  | .mk _ _ _ _ _ _ _ _ _ _ _ _ _ _ _ _ m _ => m

/-- Model of `schema.Conditions`. -/
def FieldSchema.conditions : FieldSchema → List ConditionalRule
  | .mk _ _ _ _ _ _ _ _ _ _ _ _ _ _ _ _ _ c => c

/-! ## Path helpers (validator.go) -/

/-- Model of `joinPath`. -/
def joinPath (base key : String) : String :=
  if base = "" then key else base ++ "." ++ key

/-- Model of `cleanPath` (`strings.TrimPrefix(path, ".")`: drop one leading dot). -/
def cleanPath (path : String) : String :=
  match path.data with
  | '.' :: rest => String.mk rest
  | _ => path

/-! ## The type check (validator.go, `checkTypeWithSchema`) -/

/-- Model of `checkTypeWithSchema` from validator.go: Any passes; a Null actual
passes for a Null schema type or a nullable schema and otherwise records
"unexpected null value"; equal types pass; a Float schema accepts an Int
actual; everything else records "type mismatch".  Returns the pass flag and
the updated context. -/
def checkTypeWithSchema (node : YNode) (schema : FieldSchema) (path : String) (ctx : Ctx) :
    Bool × Ctx :=
  let expected := schema.type
  if expected = .any then (true, ctx)
  else
    let actual := inferType node ctx
    if actual = .null then
      if expected = .null then (true, ctx)
      else if schema.nullable then (true, ctx)
      else
        (false, ctx.AddError ⟨.error, cleanPath path, node.line, node.column,
          "unexpected null value", "null", expected.toGoString⟩)
    else if actual = expected then (true, ctx)
    else if expected = .float ∧ actual = .int then (true, ctx)
    else
      (false, ctx.AddError ⟨.error, cleanPath path, node.line, node.column,
        "type mismatch", describeNode node, expected.toGoString⟩)

/-- The concrete null scalar used by the C2 witness. -/
def c2NullNode : YNode := .mk .scalar "!!null" "null" 5 2 [] none

/-- The concrete Int schema used by the C2 witness. -/
def c2IntSchema : FieldSchema :=
  .mk .int false false "" "" none [] none .inherit [] none none none [] [] [] [] []

/-! ## The bundled RangeValidator (pkg/valuevalidator/range.go) -/

/-- A float64 result of `parseYAMLNumber`: a finite value (kept exact as a
rational) or one of the IEEE specials the Go code produces. -/
inductive GoFloat where
  | finite (q : FRat)
  | posInf
  | negInf
  | nan
deriving DecidableEq, Repr

/-- IEEE `<` against a finite bound (`val < *Min`): NaN compares false,
-Inf is below everything finite. -/
def GoFloat.ltQ : GoFloat → FRat → Bool
  | .finite a, b => a.lt b
  | .negInf, _ => true
  | .posInf, _ => false
  | .nan, _ => false

/-- IEEE `>` against a finite bound (`val > *Max`). -/
def GoFloat.gtQ : GoFloat → FRat → Bool
  | .finite a, b => b.lt a
  | .posInf, _ => true
  | .negInf, _ => false
  | .nan, _ => false

/-- Rendering of a float64 by Go's `%v`, approximated (integral values print
without a decimal point; no claim inspects non-integral renderings). -/
def goFloatRepr : GoFloat → String
  | .finite q => if q.den = 1 then toString q.num else toString q.num ++ "/" ++ toString q.den
  | .posInf => "+Inf"
  | .negInf => "-Inf"
  | .nan => "NaN"

/-- Rendering of a finite float64 bound by Go's `%v`, approximated as in
`goFloatRepr`. -/
def goQRepr (q : FRat) : String :=
  if q.den = 1 then toString q.num else toString q.num ++ "/" ++ toString q.den

/-- The integer-forms fallback of `parseYAMLNumber` (range.go): try YAML 1.2
octal `0o`/`0O` (base 8 on the remainder), then binary `0b`/`0B` (base 2),
then hex-or-plain-decimal via base 0, each on the sign-stripped text, and
apply the sign to the result. -/
def parseYAMLNumberIntForms (cs : List Char) (neg : Bool) : Option GoFloat :=
  let signed : Int → GoFloat := fun i =>
    .finite (if neg then (FRat.ofInt i).neg else FRat.ofInt i)
  let octal : Option Int :=
    match cs with
    | '0' :: x :: rest =>
        if x = 'o' ∨ x = 'O' then go_parseInt (String.mk rest) 8 else none
    | _ => none
  match octal with
  | some i => some (signed i)
  | none =>
    let bin : Option Int :=
      match cs with
      | '0' :: x :: rest =>
          if x = 'b' ∨ x = 'B' then go_parseInt (String.mk rest) 2 else none
      | _ => none
    match bin with
    | some i => some (signed i)
    | none =>
      match go_parseInt (String.mk cs) 0 with
      | some i => some (signed i)
      | none => none

/-- Model of `parseYAMLNumber` from range.go: special float spellings, then a
standard float parse, then the integer forms with an explicit sign strip. -/
def parseYAMLNumber (node : YNode) : Option GoFloat :=
  let val := node.value
  let lower := goToLower val
  if lower = ".inf" ∨ lower = "+.inf" ∨ lower = "-.inf" then
    match lower.data with
    | '-' :: _ => some .negInf
    | _ => some .posInf
  else if lower = ".nan" then some .nan
  else
    match go_parseFloat val with
    | some q => some (.finite q)
    | none =>
      match val.data with
      | '+' :: rest => parseYAMLNumberIntForms rest false
      | '-' :: rest => parseYAMLNumberIntForms rest true
      | cs => parseYAMLNumberIntForms cs false

/-- Model of `RangeValidator.Validate` from range.go: non-numeric values record
"expected numeric value"; a value below `Min` and/or above `Max` records the
corresponding bound error(s). -/
def rangeValidatorValidate (min max : Option FRat) (node : YNode) (path : String) (ctx : Ctx) :
    Ctx :=
  match parseYAMLNumber node with
  | none =>
      ctx.AddError ⟨.error, path, node.line, node.column,
        "expected numeric value", node.value, ""⟩
  | some val =>
      let ctx :=
        match min with
        | some m =>
            if val.ltQ m then
              ctx.AddError ⟨.error, path, node.line, node.column,
                "value below minimum", goFloatRepr val, ">= " ++ goQRepr m⟩
            else ctx
        | none => ctx
      match max with
      | some mx =>
          if val.gtQ mx then
            ctx.AddError ⟨.error, path, node.line, node.column,
              "value above maximum", goFloatRepr val, "<= " ++ goQRepr mx⟩
          else ctx
      | none => ctx

/-! ## Mapping machinery (validator.go) -/

/-- Model of `resolveUnknownKeyLevel` from validator.go.  The Go `Ignore` case
returns the zero level (`LevelWarning`) with `report = false`. -/
def resolveUnknownKeyLevel (policy : UnknownKeyPolicy) (ctx : Ctx) : ErrorLevel × Bool :=
  match policy with
  | .error => (.error, true)
  | .warn => (.warning, true)
  | .ignore => (.warning, false)
  | .inherit => if ctx.strictKeys then (.error, true) else (.warning, true)

/-- Go `%q` of a string, approximated (escape sequences are not modelled;
no claim uses keys needing them). -/
def quoteStr (s : String) : String := "\"" ++ s ++ "\""

/-- Go `%v` of a `[]string`: space-separated inside brackets. -/
def goStringSliceRepr (l : List String) : String :=
  "[" ++ String.intercalate " " l ++ "]"

/-- The final contents of the Go map `foundKeys` built by the
`validateMapping` loop: last-write-wins lookup of a key's value node. -/
def foundKeyValue (pairs : List kvPair) (k : String) : Option YNode :=
  (pairs.reverse.find? (fun p => p.1.value = k)).map Prod.snd

/-- The final contents of the Go map `keyNodes`: last-write-wins lookup of a
key's key node. -/
def foundKeyNode (pairs : List kvPair) (k : String) : Option YNode :=
  (pairs.reverse.find? (fun p => p.1.value = k)).map Prod.fst

/-- The line of an optional key node; `none` is unreachable from
`validateMapping` (Go would dereference a nil pointer there). -/
def optLine : Option YNode → Nat
  | some n => n.line
  | none => 0

/-- The column of an optional key node; `none` unreachable as in `optLine`. -/
def optColumn : Option YNode → Nat
  | some n => n.column
  | none => 0

/-- Model of `checkRequiredFields` from validator.go (iteration order of the Go
`AllowedKeys` map is unspecified; the model walks the association list). -/
def checkRequiredFields (node : YNode) (schema : FieldSchema) (path : String)
    (found : String → Option YNode) (ctx : Ctx) : Ctx :=
  schema.allowedKeys.foldl
    (fun ctx kv =>
      if kv.2.required ∧ (found kv.1).isNone then
        ctx.AddError ⟨.error, cleanPath (joinPath path kv.1), node.line, node.column,
          "required field " ++ quoteStr kv.1 ++ " is missing", "", ""⟩
      else ctx) ctx

/-- Model of `checkDefaults` from validator.go. -/
def checkDefaults (node : YNode) (schema : FieldSchema) (path : String)
    (found : String → Option YNode) (ctx : Ctx) : Ctx :=
  schema.allowedKeys.foldl
    (fun ctx kv =>
      match kv.2.defaultRepr with
      | some d =>
          if (found kv.1).isNone ∧ kv.2.required = false then
            ctx.AddError ⟨.warning, cleanPath (joinPath path kv.1), node.line, node.column,
              "field " ++ quoteStr kv.1 ++ " not set, will use default: " ++ d, "", ""⟩
          else ctx
      | none => ctx) ctx

/-- The rendering of one AnyOf group in the error message. -/
def anyOfGroupStr (g : List String) : String :=
  match g with
  | [k] => quoteStr k
  | _ => "(" ++ String.intercalate " and " (g.map quoteStr) ++ ")"

/-- Model of `checkAnyOf` from validator.go: pass when some group is fully present,
otherwise one error at the parent map listing the groups. -/
def checkAnyOf (node : YNode) (schema : FieldSchema) (path : String)
    (found : String → Option YNode) (ctx : Ctx) : Ctx :=
  if schema.anyOf.isEmpty then ctx
  else if schema.anyOf.any (fun group => group.all (fun k => (found k).isSome)) then ctx
  else
    ctx.AddError ⟨.error, cleanPath path, node.line, node.column,
      "at least one of " ++
        String.intercalate " or " (schema.anyOf.map anyOfGroupStr) ++ " is required", "", ""⟩

/-- Model of `checkExactlyOneOf` from validator.go: with a non-empty key list, zero
present keys yield a "none found" error at the parent map; two or more
yield a "found: [...]" error at the key node of the second present key in
declaration order. -/
def checkExactlyOneOf (node : YNode) (schema : FieldSchema) (path : String)
    (found : String → Option YNode) (keyNd : String → Option YNode) (ctx : Ctx) : Ctx :=
  if schema.exactlyOneOf.isEmpty then ctx
  else
    let fnd := schema.exactlyOneOf.filter (fun k => (found k).isSome)
    match fnd with
    | [] =>
        ctx.AddError ⟨.error, cleanPath path, node.line, node.column,
          "exactly one of " ++ goStringSliceRepr schema.exactlyOneOf ++
            " is required, none found", "", ""⟩
    | [_] => ctx
    | _ :: second :: _ =>
        ctx.AddError ⟨.error, cleanPath path, optLine (keyNd second), optColumn (keyNd second),
          "exactly one of " ++ goStringSliceRepr schema.exactlyOneOf ++
            " is required, found: " ++ goStringSliceRepr fnd, "", ""⟩

/-- Model of `checkMutuallyExclusive` from validator.go: more than one present key
yields one error at the second present key in declaration order. -/
def checkMutuallyExclusive (node : YNode) (schema : FieldSchema) (path : String)
    (found : String → Option YNode) (keyNd : String → Option YNode) (ctx : Ctx) : Ctx :=
  if schema.mutuallyExclusive.isEmpty then ctx
  else
    let fnd := schema.mutuallyExclusive.filter (fun k => (found k).isSome)
    match fnd with
    | _ :: second :: _ =>
        ctx.AddError ⟨.error, cleanPath path, optLine (keyNd second), optColumn (keyNd second),
          "fields " ++ goStringSliceRepr fnd ++ " are mutually exclusive", "", ""⟩
    | _ => ctx

/-- Model of `checkConditions` from validator.go: a rule fires when the condition
field is present, is a scalar, and its text equals the condition value;
then-required keys that are absent error at the condition node, and
then-forbidden keys that are present error at their own key node. -/
def checkConditions (node : YNode) (schema : FieldSchema) (path : String)
    (found : String → Option YNode) (keyNd : String → Option YNode) (ctx : Ctx) : Ctx :=
  schema.conditions.foldl
    (fun ctx rule =>
      match found rule.conditionField with
      | none => ctx
      | some condNode =>
          if condNode.kind ≠ .scalar then ctx
          else if condNode.value ≠ rule.conditionValue then ctx
          else
            let ctx := rule.thenRequired.foldl
              (fun ctx reqKey =>
                if (found reqKey).isNone then
                  ctx.AddError ⟨.error, cleanPath (joinPath path reqKey),
                    condNode.line, condNode.column,
                    "field " ++ quoteStr reqKey ++ " is required when " ++
                      rule.conditionField ++ "=" ++ quoteStr rule.conditionValue, "", ""⟩
                else ctx) ctx
            rule.thenForbidden.foldl
              (fun ctx forbKey =>
                match keyNd forbKey with
                | some kn =>
                    ctx.AddError ⟨.error, cleanPath (joinPath path forbKey),
                      kn.line, kn.column,
                      "field " ++ quoteStr forbKey ++ " is forbidden when " ++
                        rule.conditionField ++ "=" ++ quoteStr rule.conditionValue, "", ""⟩
                | none => ctx) ctx) ctx

/-! ## The recursive walk (validator.go, `validateNode` and dispatch) -/

/-- Model of `validateSequence` from validator.go, parametrised by the recursive
entry point: inclusive min/max item-count checks, then per-item recursion
with `[index]` path suffixes, skipping once stopped. -/
def validateSequence (recur : YNode → Option FieldSchema → String → Ctx → Ctx)
    (node : YNode) (schema : FieldSchema) (path : String) (ctx : Ctx) : Ctx :=
  let length : Int := node.content.length
  let ctx :=
    match schema.minItems with
    | some mn =>
        if length < mn then
          ctx.AddError ⟨.error, cleanPath path, node.line, node.column,
            "too few items", toString length, "at least " ++ toString mn⟩
        else ctx
    | none => ctx
  let ctx :=
    match schema.maxItems with
    | some mx =>
        if length > mx then
          ctx.AddError ⟨.error, cleanPath path, node.line, node.column,
            "too many items", toString length, "at most " ++ toString mx⟩
        else ctx
    | none => ctx
  match schema.itemSchema with
  | none => ctx
  | some isch =>
      (node.content.foldl
        (fun (st : Nat × Ctx) item =>
          if st.2.IsStopped then (st.1 + 1, st.2)
          else (st.1 + 1,
            recur item (some isch) (path ++ "[" ++ toString st.1 ++ "]") st.2)) (0, ctx)).2

/-- Model of `validateMapping` from validator.go, parametrised by the recursive entry
point: expand merges, run key validators on every pair, route known keys to
their schema, unknown keys to AdditionalProperties or the policy, then run
the inter-field checks.  (Go returns early from the loop once stopped,
skipping the inter-field checks; every inter-field check reports through
`AddError`, a no-op on a stopped context, so running them is equivalent.) -/
def validateMapping (recur : YNode → Option FieldSchema → String → Ctx → Ctx)
    (node : YNode) (schema : FieldSchema) (path : String) (ctx : Ctx) : Ctx :=
  let pairs := expandMappingWithMerges node
  let found := foundKeyValue pairs
  let keyNd := foundKeyNode pairs
  let ctx := pairs.foldl
    (fun ctx kv =>
      if ctx.IsStopped then ctx
      else
        let key := kv.1.value
        let fieldPath := joinPath path key
        let ctx := schema.keyValidators.foldl
          (fun ctx v => v key kv.1 (cleanPath fieldPath) ctx) ctx
        match schema.allowedKeys.lookup key with
        | some fieldSchema => recur kv.2 (some fieldSchema) fieldPath ctx
        | none =>
            match schema.additionalProperties with
            | some ap => recur kv.2 (some ap) fieldPath ctx
            | none =>
                let lr := resolveUnknownKeyLevel schema.unknownKeyPolicy ctx
                if lr.2 then
                  ctx.AddError ⟨lr.1, cleanPath fieldPath, kv.1.line, kv.1.column,
                    "unknown key " ++ quoteStr key, describeNode kv.2, ""⟩
                else ctx) ctx
  let ctx := checkRequiredFields node schema path found ctx
  let ctx := checkDefaults node schema path found ctx
  let ctx := checkAnyOf node schema path found ctx
  let ctx := checkExactlyOneOf node schema path found keyNd ctx
  let ctx := checkMutuallyExclusive node schema path found keyNd ctx
  checkConditions node schema path found keyNd ctx

/-- The body of `validateNode` after alias resolution: deprecation warning,
type check (returning on failure), kind dispatch, then the value
validators, each guarded by the stopped flag. -/
def validateNodeBody (recur : YNode → Option FieldSchema → String → Ctx → Ctx)
    (node : YNode) (schema : FieldSchema) (path : String) (ctx : Ctx) : Ctx :=
  let ctx :=
    if schema.deprecated ≠ "" then
      let msg :=
        if schema.deprecated = "true" then "this field is deprecated" else schema.deprecated
      ctx.AddError ⟨.warning, cleanPath path, node.line, node.column, msg, "", ""⟩
    else ctx
  let tc := checkTypeWithSchema node schema path ctx
  if tc.1 = false then tc.2
  else
    let ctx := tc.2
    let ctx :=
      match node.kind with
      | .mapping => validateMapping recur node schema path ctx
      | .sequence => validateSequence recur node schema path ctx
      | _ => ctx
    schema.validators.foldl
      (fun ctx v => if ctx.IsStopped then ctx else v node (cleanPath path) ctx) ctx

/-- Model of `validateNode` from validator.go: a nil schema or a stopped context is a
no-op; an alias is dereferenced once (an unresolved alias records an error
and returns); then the body runs.  The fuel parameter is an artifact of the
embedding: it bounds recursion depth, and any fuel at least the document
depth reproduces the Go recursion, which terminates because documents are
finite trees. -/
def validateNode : Nat → YNode → Option FieldSchema → String → Ctx → Ctx
  | _, _, none, _, ctx => ctx
  | 0, _, some _, _, ctx => ctx
  | fuel + 1, node0, some schema, path, ctx =>
    if ctx.IsStopped then ctx
    else
      match node0 with
      | .mk .aliasNode _ _ _ _ _ (some target) =>
          validateNodeBody (validateNode fuel) target schema path ctx
      | .mk .aliasNode _ _ l c _ none =>
          ctx.AddError ⟨.error, cleanPath path, l, c, "unresolved alias", "", ""⟩
      | _ => validateNodeBody (validateNode fuel) node0 schema path ctx

/-- The document loop of `validateWithContext` from validator.go, for
already-decoded documents: validate each document root against the root
schema with path prefix `doc[i]` for `i ≥ 1`, stopping the whole sequence
once the context reports stopped. -/
def validateDocuments (fuel : Nat) (schema : Option FieldSchema) (docs : List YNode)
    (ctx : Ctx) : Ctx :=
  (docs.foldl
    (fun (st : Nat × Ctx) root =>
      if st.2.IsStopped then (st.1 + 1, st.2)
      else
        let pfx := if st.1 > 0 then "doc[" ++ toString st.1 ++ "]" else ""
        (st.1 + 1, validateNode fuel root schema pfx st.2)) (0, ctx)).2

/-! ## Claim C5: integer literal forms and the range rule -/

/-- An untagged scalar node carrying the given text, as the C5 claim
exercises (a tag outside the recognised set routes inference through the
pattern-parsing fallback). -/
def c5Node (v : String) : YNode := .mk .scalar "" v 3 5 [] none

/-- A schema of type Int with a `RangeValidator{Min: 0, Max: 100}`. -/
def c5Schema : FieldSchema :=
  .mk .int false false "" "" none [] none .inherit [] none none none
    [rangeValidatorValidate (some (FRat.ofInt 0)) (some (FRat.ofInt 100))] [] [] [] []

/-! ## Claim C7: unknown-key policy resolution -/

/-- The root schema of the C7 scenario: a map with no known keys, no
additional-properties schema, and the Inherit unknown-key policy. -/
def c7Schema : FieldSchema :=
  .mk .map false false "" "" none [] none .inherit [] none none none [] [] [] [] []

/-- A one-entry map carrying the given key and value nodes. -/
def c7Map (kn vn : YNode) : YNode := .mk .mapping "!!map" "" 1 1 [kn, vn] none

/-- A fresh context with the given option flags. -/
def c7Ctx (strict sf st y11 : Bool) : Ctx := ⟨strict, sf, st, y11, NewErrorCollector, false⟩

/-- The unknown-key diagnostic produced for the C7 scenario. -/
def c7Diag (lvl : ErrorLevel) (kn vn : YNode) : ValidationError :=
  ⟨lvl, cleanPath kn.value, kn.line, kn.column,
    "unknown key " ++ quoteStr kn.value, describeNode vn, ""⟩

/-- The concrete key node of the C7 witness. -/
def c7Kn : YNode := .mk .scalar "!!str" "extra" 2 1 [] none

/-- The concrete value node of the C7 witness. -/
def c7Vn : YNode := .mk .scalar "!!str" "v" 2 8 [] none

/-- A scalar key node for the C3 witness, at the given line. -/
def c3KeyNode (k : String) (l : Nat) : YNode := .mk .scalar "!!str" k l 1 [] none

/-- The C3 witness schema: `ExactlyOneOf = [a, b, c]`. -/
def c3Schema : FieldSchema :=
  .mk .map false false "" "" none [] none .inherit [] none none none [] []
    ["a", "b", "c"] [] []

/-- The C3 witness parent map node. -/
def c3MapNode : YNode := .mk .mapping "!!map" "" 7 4 [] none

/-- Found-keys lookup of the C3 witness: all three keys present. -/
def c3Found : String → Option YNode := fun k =>
  if k = "a" ∨ k = "b" ∨ k = "c" then some (c3KeyNode k 9) else none

/-- Key-node lookup of the C3 witness: `a` on line 1, `b` on line 2, `c` on
line 3. -/
def c3KeyNd : String → Option YNode := fun k =>
  if k = "a" then some (c3KeyNode "a" 1)
  else if k = "b" then some (c3KeyNode "b" 2)
  else if k = "c" then some (c3KeyNode "c" 3)
  else none

/-- Found-keys lookup of the C3 zero-match scenario. -/
def c3FoundNone : String → Option YNode := fun _ => none

/-! ## Claim C10: degenerate merge values contribute nothing -/

/-- Flatten a pair list into the interleaved `Content` layout of a mapping
node. -/
def flattenPairs : List kvPair → List YNode
  | [] => []
  | (k, v) :: rest => k :: v :: flattenPairs rest

/-- The degenerate merge value of the C10 witness: a plain scalar. -/
def c10Bad : YNode := .mk .scalar "!!str" "zzz" 4 5 [] none

/-- The merge key node of the C10 witness. -/
def c10MergeKey : YNode := .mk .scalar "!!merge" "<<" 4 1 [] none

/-- Explicit pair nodes of the C10 witness. -/
def c10K1 : YNode := .mk .scalar "!!str" "k1" 3 1 [] none

/-- See `c10K1`. -/
def c10V1 : YNode := .mk .scalar "!!str" "v1" 3 5 [] none

/-- See `c10K1`. -/
def c10K2 : YNode := .mk .scalar "!!str" "k2" 5 1 [] none

/-- See `c10K1`. -/
def c10V2 : YNode := .mk .scalar "!!str" "v2" 5 5 [] none

/-! ## Caret rendering (validator.go, `renderLineWithCaret`)

The Go function walks the line's bytes, decoding one rune at a time; the
model walks the line's characters (Lean strings are valid UTF-8, so the
`RuneError` repair branch is unreachable) and tracks the byte position via
`Char.utf8Size`. -/

/-- Model of `tabWidth` from validator.go. -/
def tabWidth : Nat := 4

/-- The byte length of a character list under UTF-8. -/
def utf8Len (cs : List Char) : Nat := cs.foldl (fun n c => n + c.utf8Size) 0

/-- The rendering loop of `renderLineWithCaret`: before each rune, set the
caret at the current visual column once the byte position has reached
`byteCol - 1`; a tab advances the visual column to the next multiple of the
tab stop, any other rune advances it by one. -/
def renderLineAux (byteCol : Nat) : List Char → Nat → Nat → Bool → Nat →
    List Char × Nat × Nat
  | [], _, visual, caretSet, visualCol =>
      ([], if caretSet = false ∧ byteCol > 0 then visual + 1 else visualCol, visual)
  | ch :: rest, bytePos, visual, caretSet, visualCol =>
      let st : Bool × Nat :=
        if caretSet = false ∧ byteCol > 0 ∧ byteCol - 1 ≤ bytePos then (true, visual + 1)
        else (caretSet, visualCol)
      if ch = '\t' then
        let spaces := tabWidth - visual % tabWidth
        let r := renderLineAux byteCol rest (bytePos + ch.utf8Size) (visual + spaces) st.1 st.2
        (List.replicate spaces ' ' ++ r.1, r.2)
      else
        let r := renderLineAux byteCol rest (bytePos + ch.utf8Size) (visual + 1) st.1 st.2
        (ch :: r.1, r.2)

/-- Model of `renderLineWithCaret` from validator.go: clamp the byte column to one
past the end of the line, then run the loop.  Returns (rendered line,
visual caret column, rendered length). -/
def renderLineWithCaret (line : List Char) (byteCol : Nat) : List Char × Nat × Nat :=
  let byteCol := if byteCol > utf8Len line + 1 then utf8Len line + 1 else byteCol
  renderLineAux byteCol line 0 0 false 0

/-! ## Position sorting and formatting (validator.go, `ValidationResult`) -/

/-- The `less` closure of `SortByPosition` / `sortedAllByPosition`: by line,
then column, then level descending so errors precede warnings at equal
positions (`LevelWarning = 0 < LevelError = 1`). -/
def posLess (a b : ValidationError) : Bool :=
  if a.line ≠ b.line then a.line < b.line
  else if a.column ≠ b.column then a.column < b.column
  else a.level.toNat > b.level.toNat

/-- The not-after relation induced by `posLess` (`a` may precede `b`). -/
def posLE (a b : ValidationError) : Bool := !(posLess b a)

/-- The contract Go documents for the `sort.Slice` calls of `SortByPosition`
and `sortedAllByPosition`: the slice becomes some permutation of itself that
is sorted under the `less` closure (`posLess`).  `sort.Slice` is documented
as not guaranteed to be stable, and the repository pins no toolchain, so the
relative order of diagnostics equal under the comparator is not determined
by the source; the model therefore relates an input list to every admissible
output instead of fixing one. -/
def sortSliceSpec (l l' : List ValidationError) : Prop :=
  l'.Perm l ∧ l'.Pairwise (fun a b => posLE a b)

/-- The comparison key of a diagnostic: position and severity. -/
def errKey (e : ValidationError) : Nat × Nat × ErrorLevel := (e.line, e.column, e.level)

/-- The error-level test used when the collector re-buckets diagnostics. -/
def isErrDiag (e : ValidationError) : Bool := e.level = ErrorLevel.error

/-- Model of `ValidationResult` from validator.go. -/
structure ValidationResult where
  collector : ErrorCollector
  sourceLines : List String
deriving DecidableEq, Repr

/-- Model of `ValidationResult.SortByPosition` from validator.go, as the relation its
`sort.Slice` call admits: some sorted permutation of the combined list is
taken, the collector is rebuilt by re-adding in that order, and the source
lines are untouched. -/
def ValidationResult.SortByPositionRel (r r' : ValidationResult) : Prop :=
  ∃ all', sortSliceSpec r.collector.All all' ∧
    r' = { r with collector := all'.foldl ErrorCollector.Add NewErrorCollector }

/-- Model of `ErrorLevel.String()` from validator.go. -/
def levelString (l : ErrorLevel) : String :=
  if l = .warning then "WARNING" else "ERROR"

/-- Model of `ValidationError.Error()` from validator.go. -/
def goErrorString (e : ValidationError) : String :=
  let details :=
    if e.expected ≠ "" ∧ e.got ≠ "" then
      " (expected " ++ e.expected ++ ", got " ++ e.got ++ ")"
    else if e.got ≠ "" then " (got " ++ e.got ++ ")"
    else ""
  let pos :=
    if e.line > 0 then
      if e.column > 0 then "line " ++ toString e.line ++ ":" ++ toString e.column ++ ": "
      else "line " ++ toString e.line ++ ": "
    else ""
  "[" ++ levelString e.level ++ "] " ++ pos ++ e.message ++ details ++
    " (path: " ++ e.path ++ ")"

/-- Go's `%4d`: left-pad the decimal rendering to four columns. -/
def padLeft4 (n : Nat) : String :=
  let s := toString n
  if s.length < 4 then String.mk (List.replicate (4 - s.length) ' ') ++ s else s

/-- Model of `FormatErrorWithSource` from validator.go: the diagnostic's own line,
then up to one line of context before, the target line, the caret line, and
one line of context after, all tab-expanded. -/
def FormatErrorWithSource (e : ValidationError) (lines : List String) : String :=
  let sb := goErrorString e ++ "\n"
  if e.line = 0 ∨ e.line > lines.length then sb
  else
    let lineIdx := e.line - 1
    let sb :=
      if lineIdx > 0 then
        sb ++ "  " ++ padLeft4 (e.line - 1) ++ " | " ++
          String.mk (renderLineWithCaret (lines.getD (lineIdx - 1) "").data 0).1 ++ "\n"
      else sb
    let cur := renderLineWithCaret (lines.getD lineIdx "").data e.column
    let sb := sb ++ "> " ++ padLeft4 e.line ++ " | " ++ String.mk cur.1 ++ "\n"
    let sb :=
      if cur.2.1 > 0 then
        let vc := if cur.2.1 > cur.2.2 + 1 then cur.2.2 + 1 else cur.2.1
        sb ++ "       | " ++ String.mk (List.replicate (vc - 1) ' ') ++ "^\n"
      else sb
    if lineIdx + 1 < lines.length then
      sb ++ "  " ++ padLeft4 (e.line + 1) ++ " | " ++
        String.mk (renderLineWithCaret (lines.getD (lineIdx + 1) "").data 0).1 ++ "\n"
    else sb

/-- The formatting loop shared by both branches of `FormatAll` in validator.go:
each diagnostic of the item list is rendered with source context and a
separating newline. -/
def formatItems (items : List ValidationError) (lines : List String) : String :=
  items.foldl (fun sb e => sb ++ FormatErrorWithSource e lines ++ "\n") ""

/-- Model of `ValidationResult.FormatAll` from validator.go with `sortByPos = false`:
the stored order is formatted as is.  (`All` hands out a fresh slice, so the
Go call mutates nothing; the model is accordingly a pure function of the
result.  With `sortByPos = true` the items pass through the `sort.Slice`
call first, whose admissible outcomes `sortSliceSpec` describes.) -/
def ValidationResult.FormatAllNoSort (r : ValidationResult) : String :=
  formatItems r.collector.All r.sourceLines

/-- A warning diagnostic tied with `c4wB` on line, column and level but
carrying a different message: the two are equal under the position
comparator and unequal as records. -/
def c4wA : ValidationError := ⟨.warning, "p", 1, 1, "m1", "", ""⟩

/-- See `c4wA`. -/
def c4wB : ValidationError := ⟨.warning, "p", 1, 1, "m2", "", ""⟩

/-- A result holding only the two tied warnings `c4wA` and `c4wB`; also the
rebuild after a sort pass that kept the tied pair in input order. -/
def c4r0 : ValidationResult := ⟨⟨[], [c4wA, c4wB]⟩, []⟩

/-- The rebuild of `c4r0` after a sort pass that inverted the tied pair. -/
def c4r2 : ValidationResult := ⟨⟨[], [c4wB, c4wA]⟩, []⟩

/-- A warning diagnostic whose position key differs from `c4v2`. -/
def c4v1 : ValidationError := ⟨.warning, "q", 1, 2, "w1", "", ""⟩

/-- An error diagnostic whose position key differs from `c4v1`. -/
def c4v2 : ValidationError := ⟨.error, "q", 2, 1, "e2", "", ""⟩

/-- A result holding `c4v2` and `c4v1`, whose diagnostics have pairwise
distinct (line, column, level) keys. -/
def c4s0 : ValidationResult := ⟨⟨[c4v2], [c4v1]⟩, []⟩

/-- The rebuild of `c4s0` after one position sort. -/
def c4s1 : ValidationResult := ⟨⟨[c4v2], [c4v1]⟩, []⟩

/-! ## Theorems settling the claims, and their supporting lemmas -/

/-! ## Claim C8: stop-on-first semantics of AddError -/

/-- C8: with StopOnFirst enabled, the stopped flag becomes true exactly at
the add of the first Error-level diagnostic (a Warning never sets it); once
stopped, any further sequence of AddError calls leaves the context,
including both collector buckets, completely unchanged. -/
theorem C8_stop_on_first
    (ctx : Ctx) (e : ValidationError) (es : List ValidationError) :
    (ctx.stopOnFirst = true → ctx.stopped = false →
      ((ctx.AddError e).stopped = true ↔ e.level = .error)) ∧
    (ctx.stopped = true → es.foldl Ctx.AddError ctx = ctx) := by
  constructor
  · intro hf hs
    simp only [Ctx.AddError, hs, hf]
    cases e.level <;> simp
  · intro hs
    induction es with
    | nil => rfl
    | cons x xs ih =>
      simp only [List.foldl_cons]
      have hx : ctx.AddError x = ctx := by simp [Ctx.AddError, hs]
      rw [hx, ih]

/-- Witness for C8 at a concrete context and diagnostic list. -/
theorem C8_stop_on_first_witness :
    (c8Ctx.stopOnFirst = true ∧ c8Ctx.stopped = false ∧
      ((c8Ctx.AddError c8Err).stopped = true ↔ c8Err.level = .error)) ∧
    ((c8Ctx.AddError c8Err).stopped = true ∧
      [c8Err, c8Err].foldl Ctx.AddError (c8Ctx.AddError c8Err) = c8Ctx.AddError c8Err) := by
  refine ⟨⟨rfl, rfl, (C8_stop_on_first c8Ctx c8Err []).1 rfl rfl⟩, ?_, ?_⟩
  · decide
  · exact (C8_stop_on_first (Ctx.AddError c8Ctx c8Err) c8Err [c8Err, c8Err]).2 (by decide)

/-- The final value of the `seen` map, as a function of the list it was
built from: the index of the last matching entry, read off by searching the
reversed list. -/
theorem foldl_updSeen_eq (l : List (Nat × kvPair)) (f : String → Option Nat) (k : String) :
    (l.foldl updSeen f) k =
      ((l.reverse.find? (fun p => k = p.2.1.value)).map Prod.fst).or (f k) := by
  induction l generalizing f with
  | nil => simp
  | cons p t ih =>
    simp only [List.foldl_cons, List.reverse_cons, List.find?_append]
    rw [ih]
    cases h : t.reverse.find? (fun p => k = p.2.1.value) with
    | some q => simp
    | none =>
      simp only [Option.map_none', Option.none_or, updSeen, List.find?_cons,
        List.find?_nil]
      by_cases hk : k = p.2.1.value
      · simp [hk]
      · simp [hk]

/-- De-duplication keeping the recorded last index (the code) coincides with
keeping a pair exactly when its key does not recur later (the spec). -/
theorem dedupePairsKeepLast_eq_specKeepLast (ps : List kvPair) :
    dedupePairsKeepLast ps = specKeepLast ps := by
  suffices h : ∀ (ps : List kvPair) (n : Nat),
      (((ps.enumFrom n).filter
          (fun p => ((ps.enumFrom n).foldl updSeen (fun _ => none)) p.2.1.value = some p.1)).map
        Prod.snd) = specKeepLast ps by
    simpa [dedupePairsKeepLast, List.enum] using h ps 0
  intro ps
  induction ps with
  | nil => intro n; simp [specKeepLast]
  | cons kv rest ih =>
    intro n
    rw [List.enumFrom_cons]
    have seenL := fun k =>
      foldl_updSeen_eq (((n, kv) : Nat × kvPair) :: rest.enumFrom (n + 1)) (fun _ => none) k
    -- The whole-list `seen` agrees with the tail-only `seen` on every tail element's key.
    have tail_agree : ∀ p ∈ rest.enumFrom (n + 1),
        ((((n, kv) : Nat × kvPair) :: rest.enumFrom (n + 1)).foldl updSeen (fun _ => none))
            p.2.1.value =
          ((rest.enumFrom (n + 1)).foldl updSeen (fun _ => none)) p.2.1.value := by
      intro p hp
      rw [foldl_updSeen_eq, foldl_updSeen_eq]
      have hfind : ((rest.enumFrom (n + 1)).reverse.find?
          (fun q => p.2.1.value = q.2.1.value)).isSome := by
        rw [List.find?_isSome]
        exact ⟨p, List.mem_reverse.2 hp, by simp⟩
      obtain ⟨q, hq⟩ := Option.isSome_iff_exists.1 hfind
      simp [List.reverse_cons, List.find?_append, hq]
    have filter_tail :
        ((rest.enumFrom (n + 1)).filter
            (fun p => ((((n, kv) : Nat × kvPair) :: rest.enumFrom (n + 1)).foldl updSeen
                (fun _ => none)) p.2.1.value = some p.1)) =
          ((rest.enumFrom (n + 1)).filter
            (fun p => ((rest.enumFrom (n + 1)).foldl updSeen (fun _ => none)) p.2.1.value =
              some p.1)) := by
      apply List.filter_congr
      intro p hp
      rw [tail_agree p hp]
    by_cases hany : rest.any (fun kv2 => kv2.1.value = kv.1.value)
    · -- the head key recurs later: the head is dropped on both sides
      have hhead : ((((n, kv) : Nat × kvPair) :: rest.enumFrom (n + 1)).foldl updSeen
          (fun _ => none)) kv.1.value ≠ some n := by
        rw [foldl_updSeen_eq]
        obtain ⟨kv2, hkv2, hval⟩ := List.any_eq_true.1 hany
        have hmem : ∃ j, (j, kv2) ∈ rest.enumFrom (n + 1) := by
          have hmap : kv2 ∈ (rest.enumFrom (n + 1)).map Prod.snd := by
            rw [List.enumFrom_map_snd]; exact hkv2
          obtain ⟨⟨j, x⟩, hp, hx⟩ := List.mem_map.1 hmap
          exact ⟨j, by rwa [show x = kv2 from hx] at hp⟩
        obtain ⟨j, hj⟩ := hmem
        have hfind : (((rest.enumFrom (n + 1)).reverse).find?
            (fun q => kv.1.value = q.2.1.value)).isSome := by
          rw [List.find?_isSome]
          refine ⟨(j, kv2), List.mem_reverse.2 hj, ?_⟩
          simp [Eq.symm (of_decide_eq_true hval)]
        obtain ⟨q, hq⟩ := Option.isSome_iff_exists.1 hfind
        have hqmem : q ∈ (rest.enumFrom (n + 1)).reverse := List.mem_of_find?_eq_some hq
        have hqge : n + 1 ≤ q.1 := by
          obtain ⟨q1, q2⟩ := q
          exact List.le_fst_of_mem_enumFrom (List.mem_reverse.1 hqmem)
        simp only [List.reverse_cons, List.find?_append, hq, Option.or_some,
          Option.map_some']
        intro hcon
        simp only [Option.some.injEq] at hcon
        omega
      rw [List.filter_cons, if_neg (by simp only [decide_eq_true_eq]; exact hhead)]
      rw [filter_tail]
      simp only [specKeepLast]
      rw [if_pos hany]
      exact ih (n + 1)
    · -- the head key does not recur: the head is kept on both sides
      have hnone : (((rest.enumFrom (n + 1)).reverse).find?
          (fun q => kv.1.value = q.2.1.value)) = none := by
        rw [List.find?_eq_none]
        intro q hq
        obtain ⟨j, kv2⟩ := q
        have hjmem := List.mem_reverse.1 hq
        have hkv2 : kv2 ∈ rest := by
          have hmap : kv2 ∈ (rest.enumFrom (n + 1)).map Prod.snd :=
            List.mem_map_of_mem Prod.snd hjmem
          rwa [List.enumFrom_map_snd] at hmap
        simp only [decide_eq_true_eq]
        intro hval
        have : rest.any (fun kv2 => kv2.1.value = kv.1.value) := by
          rw [List.any_eq_true]
          exact ⟨kv2, hkv2, by simp [hval]⟩
        exact hany this
      have hhead : ((((n, kv) : Nat × kvPair) :: rest.enumFrom (n + 1)).foldl updSeen
          (fun _ => none)) kv.1.value = some n := by
        rw [foldl_updSeen_eq]
        simp [List.reverse_cons, List.find?_append, hnone]
      rw [List.filter_cons, if_pos (by simp only [decide_eq_true_eq]; exact hhead)]
      rw [List.map_cons, filter_tail]
      simp only [specKeepLast]
      rw [if_neg hany, ih (n + 1)]

/-- C1: merge-key expansion of a mapping replaces each `<<` entry by its
value's contributed pairs (aliased or literal map pairs; for a sequence,
each element's contribution in source order), concatenates in source order,
and de-duplicates keeping, for each key, exactly the last occurrence — the
code's index-map de-duplication coincides with the spec's description for
every node.  In particular `{<<: *ref, host: "x"}` with `*ref` resolving to
`{timeout: 30, host: "y"}` expands to the pairs `timeout: 30` (merged) and
`host: "x"` (the explicit pair, overriding the merged `host: "y"`). -/
theorem C1_merge_key_expansion :
    (∀ node : YNode, expandMappingWithMerges node = specExpandMapping node) ∧
    expandMappingWithMerges exampleMergeMap =
      [(timeoutK, timeoutV), (hostKexplicit, hostVexplicit)] ∧
    (expandMappingWithMerges exampleMergeMap).map (fun p => (p.1.value, p.2.value)) =
      [("timeout", "30"), ("host", "x")] := by
  have hgen : ∀ node : YNode, expandMappingWithMerges node = specExpandMapping node := by
    intro node
    unfold expandMappingWithMerges specExpandMapping
    by_cases h : node.kind = .mapping
    · rw [if_pos h, if_pos h, dedupePairsKeepLast_eq_specKeepLast]
    · rw [if_neg h, if_neg h]
  have hex : expandMappingWithMerges exampleMergeMap =
      [(timeoutK, timeoutV), (hostKexplicit, hostVexplicit)] := by
    rw [hgen]
    simp only [specExpandMapping, exampleMergeMap, YNode.kind, YNode.content,
      reduceIte, collectPairs, mergeKeyNode, refAlias, hostKexplicit, YNode.value,
      extractMergePairs, refTarget, mappingToPairs, timeoutK, hostKmerged,
      specKeepLast, List.any_cons, List.any_nil]
    simp [timeoutV, hostVmerged, hostVexplicit]
  exact ⟨hgen, hex, by rw [hex]; simp [timeoutK, timeoutV, hostKexplicit, hostVexplicit,
    YNode.value]⟩

/-- Adding an Error-level diagnostic to a non-stopped context appends it to
the error bucket and leaves the warning bucket unchanged. -/
theorem addError_error_buckets (ctx : Ctx) (e : ValidationError)
    (hstop : ctx.stopped = false) (he : e.level = .error) :
    (ctx.AddError e).collector.errors = ctx.collector.errors ++ [e] ∧
    (ctx.AddError e).collector.warnings = ctx.collector.warnings := by
  by_cases hof : ctx.stopOnFirst = true <;>
    simp [Ctx.AddError, hstop, he, hof, ErrorCollector.Add]

/-- Adding a Warning-level diagnostic to a non-stopped context appends it to
the warning bucket, leaves the error bucket unchanged, and never stops. -/
theorem addError_warning_buckets (ctx : Ctx) (e : ValidationError)
    (hstop : ctx.stopped = false) (he : e.level = .warning) :
    (ctx.AddError e).collector.errors = ctx.collector.errors ∧
    (ctx.AddError e).collector.warnings = ctx.collector.warnings ++ [e] ∧
    (ctx.AddError e).stopped = false := by
  have : ¬(ctx.stopOnFirst = true ∧ e.level = .error) := by simp [he]
  simp [Ctx.AddError, hstop, he, this, ErrorCollector.Add]

/-- C2: the type check passes exactly when the schema type is Any, the
inferred actual equals the expected type, the actual is Null and the schema
type is Null or the schema nullable, or the expected type is Float and the
actual Int; a failing Null actual records exactly one "unexpected null
value" Error, a Float actual never passes an Int schema, and every other
mismatch records exactly one "type mismatch" Error. -/
theorem C2_type_check (node : YNode) (schema : FieldSchema) (path : String) (ctx : Ctx) :
    ((checkTypeWithSchema node schema path ctx).1 = true ↔
      (schema.type = .any ∨ inferType node ctx = schema.type ∨
        (inferType node ctx = .null ∧ (schema.type = .null ∨ schema.nullable = true)) ∨
        (schema.type = .float ∧ inferType node ctx = .int))) ∧
    (ctx.stopped = false → inferType node ctx = .null → schema.type ≠ .any →
      schema.type ≠ .null → schema.nullable = false →
      (checkTypeWithSchema node schema path ctx).2.collector.errors =
        ctx.collector.errors ++ [⟨.error, cleanPath path, node.line, node.column,
          "unexpected null value", "null", schema.type.toGoString⟩] ∧
      (checkTypeWithSchema node schema path ctx).2.collector.warnings =
        ctx.collector.warnings) ∧
    (schema.type = .int → inferType node ctx = .float →
      (checkTypeWithSchema node schema path ctx).1 = false) ∧
    (ctx.stopped = false → (checkTypeWithSchema node schema path ctx).1 = false →
      inferType node ctx ≠ .null →
      (checkTypeWithSchema node schema path ctx).2.collector.errors =
        ctx.collector.errors ++ [⟨.error, cleanPath path, node.line, node.column,
          "type mismatch", describeNode node, schema.type.toGoString⟩] ∧
      (checkTypeWithSchema node schema path ctx).2.collector.warnings =
        ctx.collector.warnings) := by
  refine ⟨?_, ?_, ?_, ?_⟩
  · have hgen : ∀ (E A : NodeType) (N : Bool),
        ((if E = .any then true
          else if A = .null then
            if E = .null then true else if N then true else false
          else if A = E then true
          else if E = .float ∧ A = .int then true
          else false) = true) ↔
        (E = .any ∨ A = E ∨ (A = .null ∧ (E = .null ∨ N = true)) ∨
          (E = .float ∧ A = .int)) := by
      intro E A N
      cases E <;> cases A <;> cases N <;> simp
    have heq : (checkTypeWithSchema node schema path ctx).1 =
        (if schema.type = .any then true
         else if inferType node ctx = .null then
           if schema.type = .null then true else if schema.nullable then true else false
         else if inferType node ctx = schema.type then true
         else if schema.type = .float ∧ inferType node ctx = .int then true
         else false) := by
      simp only [checkTypeWithSchema]
      split_ifs <;> rfl
    rw [heq]
    exact hgen schema.type (inferType node ctx) schema.nullable
  · intro hstop h2 h1 h3 h4
    have hnl : ¬schema.nullable = true := by simp [h4]
    simp only [checkTypeWithSchema, if_neg h1, h2, if_pos rfl, if_neg h3, if_neg hnl]
    exact addError_error_buckets ctx _ hstop rfl
  · intro hint hfl
    unfold checkTypeWithSchema
    rw [hint, hfl]
    simp
  · intro hstop hfail hnn
    by_cases h1 : schema.type = .any
    · simp [checkTypeWithSchema, h1] at hfail
    · by_cases h5 : inferType node ctx = schema.type
      · simp [checkTypeWithSchema, h1, h5, hnn] at hfail
        rw [← h5] at hfail
        simp [hnn] at hfail
      · by_cases h6 : schema.type = .float ∧ inferType node ctx = .int
        · simp [checkTypeWithSchema, h1, hnn, h5, h6] at hfail
        · simp only [checkTypeWithSchema, if_neg h1, if_neg hnn, if_neg h5, if_neg h6]
          exact addError_error_buckets ctx _ hstop rfl

/-- Witness for C2: evaluating the type check at a null scalar against a
non-nullable Int schema in a fresh context. -/
theorem C2_type_check_witness :
    (checkTypeWithSchema c2NullNode c2IntSchema "p" NewValidationContext).1 = false ∧
    (checkTypeWithSchema c2NullNode c2IntSchema "p" NewValidationContext).2.collector.errors =
      [⟨.error, "p", 5, 2, "unexpected null value", "null", "integer"⟩] ∧
    (checkTypeWithSchema c2NullNode c2IntSchema "p" NewValidationContext).2.collector.warnings =
      [] := by
  have hinf : inferType c2NullNode NewValidationContext = .null := by
    simp [c2NullNode, inferType, inferScalarType, YNode.tag, NewValidationContext]
  have h := C2_type_check c2NullNode c2IntSchema "p" NewValidationContext
  have h2 := h.2.1 rfl hinf (by simp [c2IntSchema, FieldSchema.type])
    (by simp [c2IntSchema, FieldSchema.type]) rfl
  have hpass := h.1
  have hclean : cleanPath "p" = "p" := by decide
  refine ⟨?_, ?_, ?_⟩
  · rw [← Bool.not_eq_true]
    rw [hpass]
    simp [c2IntSchema, FieldSchema.type, FieldSchema.nullable, hinf]
  · rw [h2.1]
    simp [NewValidationContext, NewErrorCollector, hclean, c2NullNode, c2IntSchema,
      FieldSchema.type, NodeType.toGoString, YNode.line, YNode.column]
  · rw [h2.2]
    simp [NewValidationContext, NewErrorCollector]

/-- C5: with StrictTypes disabled, each of `42`, `0x2A`, `0o52`, `0b101010`
looks like an Int, infers as Int, and validates with no diagnostic under an
Int schema carrying a Range(0, 100) rule; legacy leading-zero octal is not
routed to the octal parser (a `0`-prefixed text with the non-octal digit `8`
is still accepted, as decimal, while `0o8` is rejected), and the range
parser reads `052` as decimal 52. -/
theorem C5_int_literal_forms :
    (∀ s ∈ (["42", "0x2A", "0o52", "0b101010"] : List String),
      looksLikeInt s = true ∧
      inferType (c5Node s) NewValidationContext = .int ∧
      rangeValidatorValidate (some (FRat.ofInt 0)) (some (FRat.ofInt 100)) (c5Node s) ""
          NewValidationContext =
        NewValidationContext ∧
      validateNode 1 (c5Node s) (some c5Schema) "" NewValidationContext =
        NewValidationContext) ∧
    looksLikeInt "08" = true ∧
    looksLikeInt "0o8" = false ∧
    parseYAMLNumber (c5Node "052") = some (.finite ⟨52, 1⟩) := by
  decide

/-- Witness for C5, applying the bounded quantifier at the literal `42`. -/
theorem C5_int_literal_forms_witness :
    "42" ∈ (["42", "0x2A", "0o52", "0b101010"] : List String) ∧
    looksLikeInt "42" = true ∧
    validateNode 1 (c5Node "42") (some c5Schema) "" NewValidationContext =
      NewValidationContext := by
  refine ⟨by decide, ?_, ?_⟩
  · exact (C5_int_literal_forms.1 "42" (by decide)).1
  · exact (C5_int_literal_forms.1 "42" (by decide)).2.2.2

/-! ## Claim C9: a nil schema is a total no-op -/

/-- C9: validating any node against a nil schema returns immediately with
the context unchanged, for every fuel, node, path and context; hence a
validator with a nil root schema reports no errors and no warnings over any
document stream. -/
theorem C9_nil_schema_noop :
    (∀ (fuel : Nat) (node : YNode) (path : String) (ctx : Ctx),
      validateNode fuel node none path ctx = ctx) ∧
    (∀ (fuel : Nat) (docs : List YNode),
      (validateDocuments fuel none docs NewValidationContext).collector.errors = [] ∧
      (validateDocuments fuel none docs NewValidationContext).collector.warnings = []) := by
  have h1 : ∀ (fuel : Nat) (node : YNode) (path : String) (ctx : Ctx),
      validateNode fuel node none path ctx = ctx := by
    intro fuel node path ctx
    cases fuel <;> rfl
  refine ⟨h1, ?_⟩
  intro fuel docs
  have h2 : ∀ (docs : List YNode) (st : Nat × Ctx),
      (docs.foldl
        (fun (st : Nat × Ctx) root =>
          if st.2.IsStopped then (st.1 + 1, st.2)
          else
            let pfx := if st.1 > 0 then "doc[" ++ toString st.1 ++ "]" else ""
            (st.1 + 1, validateNode fuel root none pfx st.2)) st).2 = st.2 := by
    intro docs
    induction docs with
    | nil => intro st; rfl
    | cons d ds ih =>
      intro st
      simp only [List.foldl_cons]
      by_cases hs : st.2.IsStopped
      · rw [if_pos hs]
        exact ih _
      · rw [if_neg hs]
        rw [ih]
        exact h1 fuel d _ st.2
  unfold validateDocuments
  rw [h2]
  exact ⟨rfl, rfl⟩

/-- A two-child mapping whose single key is not the merge key expands to
exactly that pair. -/
theorem expand_single_pair (t v : String) (l c : Nat) (a : Option YNode)
    (kn vn : YNode) (h : ¬kn.value = "<<") :
    expandMappingWithMerges (.mk .mapping t v l c [kn, vn] a) = [(kn, vn)] := by
  rw [expandMappingWithMerges, dedupePairsKeepLast_eq_specKeepLast]
  simp [YNode.kind, YNode.content, collectPairs, h, specKeepLast]

/-- C7: the unknown-key policy resolves to always-error, always-warn,
silently-ignore, and, under Inherit, to error exactly when StrictKeys is
set; end to end, validating a one-key map against a known-keys-free map
schema with no additional-properties schema and the Inherit policy yields
exactly one Warning and zero Errors when StrictKeys is false, and exactly
one Error and zero Warnings when StrictKeys is true. -/
theorem C7_unknown_key_policy (fuel : Nat) (kn vn : YNode) (strict sf st y11 : Bool)
    (hkey : ¬kn.value = "<<") :
    (∀ ctx : Ctx,
      resolveUnknownKeyLevel .error ctx = (.error, true) ∧
      resolveUnknownKeyLevel .warn ctx = (.warning, true) ∧
      (resolveUnknownKeyLevel .ignore ctx).2 = false ∧
      resolveUnknownKeyLevel .inherit ctx =
        if ctx.strictKeys then (.error, true) else (.warning, true)) ∧
    (strict = false →
      (validateNode (fuel + 1) (c7Map kn vn) (some c7Schema) ""
          (c7Ctx strict sf st y11)).collector.errors = [] ∧
      (validateNode (fuel + 1) (c7Map kn vn) (some c7Schema) ""
          (c7Ctx strict sf st y11)).collector.warnings = [c7Diag .warning kn vn]) ∧
    (strict = true →
      (validateNode (fuel + 1) (c7Map kn vn) (some c7Schema) ""
          (c7Ctx strict sf st y11)).collector.errors = [c7Diag .error kn vn] ∧
      (validateNode (fuel + 1) (c7Map kn vn) (some c7Schema) ""
          (c7Ctx strict sf st y11)).collector.warnings = []) := by
  have hexp := expand_single_pair "!!map" "" 1 1 none kn vn hkey
  have hrun : ∀ s : Bool, validateNode (fuel + 1) (c7Map kn vn) (some c7Schema) ""
      (c7Ctx s sf st y11) =
      (c7Ctx s sf st y11).AddError
        (c7Diag (if s then .error else .warning) kn vn) := by
    intro s
    cases s <;>
      simp [validateNode, validateNodeBody, validateMapping, checkTypeWithSchema,
        inferType, c7Map, c7Schema, c7Ctx, Ctx.IsStopped, hexp, joinPath,
        checkRequiredFields, checkDefaults, checkAnyOf, checkExactlyOneOf,
        checkMutuallyExclusive, checkConditions, resolveUnknownKeyLevel,
        FieldSchema.type, FieldSchema.deprecated, FieldSchema.allowedKeys,
        FieldSchema.additionalProperties, FieldSchema.unknownKeyPolicy,
        FieldSchema.keyValidators, FieldSchema.validators, FieldSchema.anyOf,
        FieldSchema.exactlyOneOf, FieldSchema.mutuallyExclusive,
        FieldSchema.conditions, FieldSchema.nullable, YNode.kind, c7Diag]
  refine ⟨?_, ?_, ?_⟩
  · intro ctx
    refine ⟨rfl, rfl, rfl, rfl⟩
  · intro hs
    subst hs
    rw [hrun false]
    have h1 := addError_warning_buckets (c7Ctx false sf st y11)
      (c7Diag (if false then .error else .warning) kn vn) rfl rfl
    constructor
    · simpa [c7Ctx, NewErrorCollector] using h1.1
    · simpa [c7Ctx, NewErrorCollector] using h1.2.1
  · intro hs
    subst hs
    rw [hrun true]
    have h1 := addError_error_buckets (c7Ctx true sf st y11)
      (c7Diag (if true then .error else .warning) kn vn) rfl rfl
    constructor
    · simpa [c7Ctx, NewErrorCollector] using h1.1
    · simpa [c7Ctx, NewErrorCollector] using h1.2

/-- Witness for C7 at a concrete unknown key, under both StrictKeys
settings. -/
theorem C7_unknown_key_policy_witness :
    ¬(c7Kn.value = "<<") ∧
    (validateNode 1 (c7Map c7Kn c7Vn) (some c7Schema) ""
        (c7Ctx false false false false)).collector.warnings = [c7Diag .warning c7Kn c7Vn] ∧
    (validateNode 1 (c7Map c7Kn c7Vn) (some c7Schema) ""
        (c7Ctx false false false false)).collector.errors = [] ∧
    (validateNode 1 (c7Map c7Kn c7Vn) (some c7Schema) ""
        (c7Ctx true false false false)).collector.errors = [c7Diag .error c7Kn c7Vn] ∧
    (validateNode 1 (c7Map c7Kn c7Vn) (some c7Schema) ""
        (c7Ctx true false false false)).collector.warnings = [] := by
  refine ⟨by decide, ?_, ?_, ?_, ?_⟩
  · exact ((C7_unknown_key_policy 0 c7Kn c7Vn false false false false (by decide)).2.1 rfl).2
  · exact ((C7_unknown_key_policy 0 c7Kn c7Vn false false false false (by decide)).2.1 rfl).1
  · exact ((C7_unknown_key_policy 0 c7Kn c7Vn true false false false (by decide)).2.2 rfl).1
  · exact ((C7_unknown_key_policy 0 c7Kn c7Vn true false false false (by decide)).2.2 rfl).2

/-! ## Claim C3: ExactlyOneOf positioning -/

/-- C3: with a non-empty ExactlyOneOf list, zero present keys record exactly
one Error, saying none were found, at the parent map's position; two or more
present keys record exactly one Error at the line/column of the key node of
the second present key in declaration order. -/
theorem C3_exactly_one_of (node : YNode) (schema : FieldSchema) (path : String)
    (found keyNd : String → Option YNode) (ctx : Ctx)
    (hne : schema.exactlyOneOf.isEmpty = false) (hstop : ctx.stopped = false) :
    (schema.exactlyOneOf.filter (fun k => (found k).isSome) = [] →
      (checkExactlyOneOf node schema path found keyNd ctx).collector.errors =
        ctx.collector.errors ++ [⟨.error, cleanPath path, node.line, node.column,
          "exactly one of " ++ goStringSliceRepr schema.exactlyOneOf ++
            " is required, none found", "", ""⟩] ∧
      (checkExactlyOneOf node schema path found keyNd ctx).collector.warnings =
        ctx.collector.warnings) ∧
    (∀ k1 k2 rest,
      schema.exactlyOneOf.filter (fun k => (found k).isSome) = k1 :: k2 :: rest →
      (checkExactlyOneOf node schema path found keyNd ctx).collector.errors =
        ctx.collector.errors ++ [⟨.error, cleanPath path,
          optLine (keyNd k2), optColumn (keyNd k2),
          "exactly one of " ++ goStringSliceRepr schema.exactlyOneOf ++
            " is required, found: " ++ goStringSliceRepr (k1 :: k2 :: rest), "", ""⟩] ∧
      (checkExactlyOneOf node schema path found keyNd ctx).collector.warnings =
        ctx.collector.warnings) := by
  constructor
  · intro hzero
    simp only [checkExactlyOneOf, hne, Bool.false_eq_true, if_false, hzero]
    exact addError_error_buckets ctx _ hstop rfl
  · intro k1 k2 rest hmulti
    simp only [checkExactlyOneOf, hne, Bool.false_eq_true, if_false, hmulti]
    exact addError_error_buckets ctx _ hstop rfl

/-- Witness for C3: with all of `a`, `b`, `c` present the single error sits
at `b`'s node (line 2 — not the first match on line 1, not the last on
line 3), and with none present the single error sits at the parent map
(line 7). -/
theorem C3_exactly_one_of_witness :
    (checkExactlyOneOf c3MapNode c3Schema "m" c3Found c3KeyNd
        NewValidationContext).collector.errors =
      [⟨.error, "m", 2, 1,
        "exactly one of [a b c] is required, found: [a b c]", "", ""⟩] ∧
    (checkExactlyOneOf c3MapNode c3Schema "m" c3FoundNone c3KeyNd
        NewValidationContext).collector.errors =
      [⟨.error, "m", 7, 4, "exactly one of [a b c] is required, none found", "", ""⟩] := by
  constructor
  · have h := (C3_exactly_one_of c3MapNode c3Schema "m" c3Found c3KeyNd
      NewValidationContext rfl rfl).2 "a" "b" ["c"] (by decide)
    rw [h.1]
    decide
  · have h := (C3_exactly_one_of c3MapNode c3Schema "m" c3FoundNone c3KeyNd
      NewValidationContext rfl rfl).1 (by decide)
    rw [h.1]
    decide

/-- Pair collection distributes over concatenation of flattened pair
lists. -/
theorem collectPairs_flatten_append (ps qs : List kvPair) :
    collectPairs (flattenPairs (ps ++ qs)) =
      collectPairs (flattenPairs ps) ++ collectPairs (flattenPairs qs) := by
  induction ps with
  | nil => rfl
  | cons kv rest ih =>
    obtain ⟨k, v⟩ := kv
    simp only [List.cons_append, flattenPairs, collectPairs, List.append_eq, ih,
      List.append_assoc]

/-- The model of `checkRequiredFields` reads only the node's position. -/
theorem checkRequiredFields_node_congr (n1 n2 : YNode) (hl : n1.line = n2.line)
    (hc : n1.column = n2.column) :
    ∀ (s : FieldSchema) (p : String) (f : String → Option YNode) (ctx : Ctx),
      checkRequiredFields n1 s p f ctx = checkRequiredFields n2 s p f ctx := by
  intro s p f ctx
  simp only [checkRequiredFields, hl, hc]

/-- The model of `checkDefaults` reads only the node's position. -/
theorem checkDefaults_node_congr (n1 n2 : YNode) (hl : n1.line = n2.line)
    (hc : n1.column = n2.column) :
    ∀ (s : FieldSchema) (p : String) (f : String → Option YNode) (ctx : Ctx),
      checkDefaults n1 s p f ctx = checkDefaults n2 s p f ctx := by
  intro s p f ctx
  simp only [checkDefaults, hl, hc]

/-- The model of `checkAnyOf` reads only the node's position. -/
theorem checkAnyOf_node_congr (n1 n2 : YNode) (hl : n1.line = n2.line)
    (hc : n1.column = n2.column) :
    ∀ (s : FieldSchema) (p : String) (f : String → Option YNode) (ctx : Ctx),
      checkAnyOf n1 s p f ctx = checkAnyOf n2 s p f ctx := by
  intro s p f ctx
  simp only [checkAnyOf, hl, hc]

/-- The model of `checkExactlyOneOf` reads only the node's position. -/
theorem checkExactlyOneOf_node_congr (n1 n2 : YNode) (hl : n1.line = n2.line)
    (hc : n1.column = n2.column) :
    ∀ (s : FieldSchema) (p : String) (f k : String → Option YNode) (ctx : Ctx),
      checkExactlyOneOf n1 s p f k ctx = checkExactlyOneOf n2 s p f k ctx := by
  intro s p f k ctx
  simp only [checkExactlyOneOf, hl, hc]

/-- The model of `checkMutuallyExclusive` does not read the node at all. -/
theorem checkMutuallyExclusive_node_congr (n1 n2 : YNode) :
    ∀ (s : FieldSchema) (p : String) (f k : String → Option YNode) (ctx : Ctx),
      checkMutuallyExclusive n1 s p f k ctx = checkMutuallyExclusive n2 s p f k ctx := by
  intro s p f k ctx
  rfl

/-- The model of `checkConditions` does not read the node at all. -/
theorem checkConditions_node_congr (n1 n2 : YNode) :
    ∀ (s : FieldSchema) (p : String) (f k : String → Option YNode) (ctx : Ctx),
      checkConditions n1 s p f k ctx = checkConditions n2 s p f k ctx := by
  intro s p f k ctx
  rfl

/-- C10: a merge entry whose value is neither a resolved alias, nor a map,
nor a sequence (a plain scalar, a document node, or an unresolved alias)
contributes zero pairs; the mapping expands exactly as if the entry were
absent, and the whole validation of such a mapping (under any schema without
custom value validators at the map level, which receive the raw node) is
unchanged, so no diagnostic is recorded for the entry. -/
theorem C10_degenerate_merge (badVal mkey : YNode) (t v : String) (l c : Nat)
    (a : Option YNode) (ps qs : List kvPair)
    (hm : mkey.value = "<<")
    (hbad : (¬badVal.kind = .aliasNode ∧ ¬badVal.kind = .mapping ∧
        ¬badVal.kind = .sequence) ∨
      (badVal.kind = .aliasNode ∧ badVal.aliasTarget = none)) :
    extractMergePairs badVal = [] ∧
    expandMappingWithMerges (.mk .mapping t v l c (flattenPairs (ps ++ (mkey, badVal) :: qs)) a) =
      expandMappingWithMerges (.mk .mapping t v l c (flattenPairs (ps ++ qs)) a) ∧
    (∀ (fuel : Nat) (schema : Option FieldSchema) (path : String) (ctx : Ctx),
      (match schema with
        | some s => s.validators = []
        | none => True) →
      validateNode fuel (.mk .mapping t v l c (flattenPairs (ps ++ (mkey, badVal) :: qs)) a)
          schema path ctx =
        validateNode fuel (.mk .mapping t v l c (flattenPairs (ps ++ qs)) a)
          schema path ctx) := by
  have hext : extractMergePairs badVal = [] := by
    cases badVal with
    | mk k tg vl ln cl cs al =>
      rcases hbad with ⟨h1, h2, h3⟩ | ⟨h1, h2⟩
      · cases k <;> simp_all [extractMergePairs, YNode.kind]
      · cases al with
        | none => simp_all [extractMergePairs, YNode.kind, YNode.aliasTarget]
        | some tr => simp_all [YNode.aliasTarget]
  have hcollect : collectPairs (flattenPairs (ps ++ (mkey, badVal) :: qs)) =
      collectPairs (flattenPairs (ps ++ qs)) := by
    rw [collectPairs_flatten_append, collectPairs_flatten_append]
    simp only [flattenPairs, collectPairs, hm, if_true, hext, List.nil_append,
      eq_self_iff_true, if_pos]
  have hexpand : expandMappingWithMerges
        (.mk .mapping t v l c (flattenPairs (ps ++ (mkey, badVal) :: qs)) a) =
      expandMappingWithMerges (.mk .mapping t v l c (flattenPairs (ps ++ qs)) a) := by
    simp only [expandMappingWithMerges, YNode.kind, YNode.content, hcollect]
  refine ⟨hext, hexpand, ?_⟩
  intro fuel schema path ctx hval
  match schema with
  | none => cases fuel <;> rfl
  | some s =>
    have hv : s.validators = [] := hval
    match fuel with
    | 0 => rfl
    | fuel + 1 =>
      simp only [validateNode]
      by_cases hs : ctx.IsStopped
      · rw [if_pos hs, if_pos hs]
      · rw [if_neg hs, if_neg hs]
        have hl : (YNode.mk YKind.mapping t v l c
            (flattenPairs (ps ++ (mkey, badVal) :: qs)) a).line =
            (YNode.mk YKind.mapping t v l c (flattenPairs (ps ++ qs)) a).line := rfl
        have hc : (YNode.mk YKind.mapping t v l c
            (flattenPairs (ps ++ (mkey, badVal) :: qs)) a).column =
            (YNode.mk YKind.mapping t v l c (flattenPairs (ps ++ qs)) a).column := rfl
        simp only [validateNodeBody, YNode.line, YNode.column, YNode.kind,
          checkTypeWithSchema, inferType, describeNode, YNode.content,
          validateMapping, hexpand, hv, List.foldl_nil,
          checkRequiredFields_node_congr _ _ hl hc,
          checkDefaults_node_congr _ _ hl hc,
          checkAnyOf_node_congr _ _ hl hc,
          checkExactlyOneOf_node_congr _ _ hl hc,
          checkMutuallyExclusive_node_congr
            (YNode.mk YKind.mapping t v l c (flattenPairs (ps ++ (mkey, badVal) :: qs)) a)
            (YNode.mk YKind.mapping t v l c (flattenPairs (ps ++ qs)) a),
          checkConditions_node_congr
            (YNode.mk YKind.mapping t v l c (flattenPairs (ps ++ (mkey, badVal) :: qs)) a)
            (YNode.mk YKind.mapping t v l c (flattenPairs (ps ++ qs)) a)]

/-- Witness for C10 at a concrete scalar-valued merge entry between two
explicit pairs. -/
theorem C10_degenerate_merge_witness :
    extractMergePairs c10Bad = [] ∧
    expandMappingWithMerges (.mk .mapping "!!map" "" 3 1
        (flattenPairs ([(c10K1, c10V1)] ++ (c10MergeKey, c10Bad) :: [(c10K2, c10V2)])) none) =
      expandMappingWithMerges (.mk .mapping "!!map" "" 3 1
        (flattenPairs ([(c10K1, c10V1)] ++ [(c10K2, c10V2)])) none) ∧
    validateNode 1 (.mk .mapping "!!map" "" 3 1
        (flattenPairs ([(c10K1, c10V1)] ++ (c10MergeKey, c10Bad) :: [(c10K2, c10V2)])) none)
        (some c7Schema) "" (c7Ctx false false false false) =
      validateNode 1 (.mk .mapping "!!map" "" 3 1
        (flattenPairs ([(c10K1, c10V1)] ++ [(c10K2, c10V2)])) none)
        (some c7Schema) "" (c7Ctx false false false false) := by
  have h := C10_degenerate_merge c10Bad c10MergeKey "!!map" "" 3 1 none
    [(c10K1, c10V1)] [(c10K2, c10V2)] (by decide)
    (Or.inl ⟨by decide, by decide, by decide⟩)
  exact ⟨h.1, h.2.1, h.2.2 1 (some c7Schema) "" (c7Ctx false false false false) rfl⟩

/-- UTF-8 length of a cons cell. -/
theorem utf8Len_cons (c : Char) (cs : List Char) :
    utf8Len (c :: cs) = c.utf8Size + utf8Len cs := by
  have h : ∀ (l : List Char) (a : Nat),
      l.foldl (fun n c => n + c.utf8Size) a = a + l.foldl (fun n c => n + c.utf8Size) 0 := by
    intro l
    induction l with
    | nil => intro a; simp
    | cons x xs ih =>
      intro a
      simp only [List.foldl_cons]
      rw [ih (a + x.utf8Size), ih (0 + x.utf8Size)]
      omega
  simp only [utf8Len, List.foldl_cons]
  rw [h cs (0 + c.utf8Size)]
  omega

/-- When the (clamped) byte column lies beyond every rune boundary that the
loop visits, the caret is never set mid-loop and lands one past the last
visual column. -/
theorem renderLineAux_clamp (byteCol : Nat) (cs : List Char) :
    ∀ (bytePos visual vc : Nat), 0 < byteCol → bytePos + utf8Len cs ≤ byteCol - 1 →
      (renderLineAux byteCol cs bytePos visual false vc).2.1 =
        (renderLineAux byteCol cs bytePos visual false vc).2.2 + 1 := by
  induction cs with
  | nil =>
    intro bytePos visual vc hpos hle
    simp [renderLineAux, hpos]
  | cons ch rest ih =>
    intro bytePos visual vc hpos hle
    have hsize : 0 < ch.utf8Size := Char.utf8Size_pos ch
    rw [utf8Len_cons] at hle
    have hnot : ¬(byteCol - 1 ≤ bytePos) := by omega
    have hrest : (bytePos + ch.utf8Size) + utf8Len rest ≤ byteCol - 1 := by omega
    simp only [renderLineAux, hnot, and_false, if_false]
    by_cases htab : ch = '\t'
    · simp only [if_pos htab]
      have := ih (bytePos + ch.utf8Size) (visual + (tabWidth - visual % tabWidth)) vc hpos hrest
      simpa [hnot] using this
    · simp only [if_neg htab]
      have := ih (bytePos + ch.utf8Size) (visual + 1) vc hpos hrest
      simpa [hnot] using this

/-- C6, as the code behaves: for line `ab\tcd` and byte column 4 the
rendered line is `ab  cd` with visual caret column 5 and rendered length 6;
a byte column at or beyond end-of-line lands one past the last visual
column; but when the byte column falls strictly inside a multi-byte scalar
('é' spans bytes 1-2 of `éx`, and byte column 2 points between them), the
caret lands at visual column 2 — immediately *after* the scalar, before the
next one — not at visual column 1 immediately before it as the function's
own documentation and the specification state. -/
theorem C6_caret_rendering_code_behavior :
    renderLineWithCaret "ab\tcd".data 4 = ("ab  cd".data, 5, 6) ∧
    (∀ (line : List Char) (byteCol : Nat), 0 < byteCol → utf8Len line + 1 ≤ byteCol →
      (renderLineWithCaret line byteCol).2.1 = (renderLineWithCaret line byteCol).2.2 + 1) ∧
    utf8Len ['é'] = 2 ∧
    (renderLineWithCaret "éx".data 2).2.1 = 2 := by
  refine ⟨by decide, ?_, by decide, by decide⟩
  intro line byteCol hpos hbig
  unfold renderLineWithCaret
  by_cases hclamp : byteCol > utf8Len line + 1
  · rw [if_pos hclamp]
    exact renderLineAux_clamp _ line 0 0 0 (by omega) (by omega)
  · rw [if_neg hclamp]
    have heq : byteCol = utf8Len line + 1 := by omega
    exact renderLineAux_clamp _ line 0 0 0 hpos (by omega)

/-- Witness for C6's clamping clause at a concrete line and byte column. -/
theorem C6_caret_rendering_code_behavior_witness :
    (0 < 9 ∧ utf8Len "ab".data + 1 ≤ 9) ∧
    (renderLineWithCaret "ab".data 9).2.1 = (renderLineWithCaret "ab".data 9).2.2 + 1 := by
  exact ⟨⟨by decide, by decide⟩,
    C6_caret_rendering_code_behavior.2.1 "ab".data 9 (by decide) (by decide)⟩

/-- Characterization of `posLE` in arithmetic form. -/
theorem posLE_iff (a b : ValidationError) :
    posLE a b = true ↔
      (a.line < b.line ∨ (a.line = b.line ∧ (a.column < b.column ∨
        (a.column = b.column ∧ b.level.toNat ≤ a.level.toNat)))) := by
  rw [posLE, Bool.not_eq_true']
  unfold posLess
  split_ifs with h1 h2 <;> simp only [decide_eq_false_iff_not, Nat.not_lt] <;> omega

/-- Totality of `posLE`. -/
theorem posLE_total (a b : ValidationError) : posLE a b || posLE b a := by
  rw [Bool.or_eq_true, posLE_iff, posLE_iff]
  omega

/-- Transitivity of `posLE`. -/
theorem posLE_trans (a b c : ValidationError) :
    posLE a b → posLE b c → posLE a c := by
  intro h1 h2
  rw [posLE_iff] at h1 h2 ⊢
  omega

/-- Two diagnostics each allowed to precede the other share line, column and
level. -/
theorem errKey_eq_of_posLE_both (a b : ValidationError)
    (h1 : posLE a b = true) (h2 : posLE b a = true) : errKey a = errKey b := by
  rw [posLE_iff] at h1 h2
  have hl : a.line = b.line := by omega
  have hc : a.column = b.column := by omega
  have hn : a.level.toNat = b.level.toNat := by omega
  have hlev : a.level = b.level := by
    cases ha : a.level <;> cases hb : b.level <;> simp_all [ErrorLevel.toNat]
  simp [errKey, hl, hc, hlev]

/-- Equal keys compare `posLE` in both directions. -/
theorem posLE_of_errKey_eq (a b : ValidationError) (h : errKey a = errKey b) :
    posLE a b = true := by
  simp only [errKey, Prod.mk.injEq] at h
  rw [posLE_iff]
  have : a.level.toNat = b.level.toNat := by rw [h.2.2]
  omega

/-- Two sorted lists that are permutations of each other and list the
diagnostics of every (line, column, level) class in the same order are
equal: the stable-sort output is determined by the class sequences. -/
theorem eq_of_sorted_perm_classes :
    ∀ (s t : List ValidationError),
      s.Pairwise (fun a b => posLE a b) →
      t.Pairwise (fun a b => posLE a b) →
      s.Perm t →
      (∀ k : Nat × Nat × ErrorLevel,
        s.filter (fun a => errKey a = k) = t.filter (fun a => errKey a = k)) →
      s = t := by
  intro s
  induction s with
  | nil =>
    intro t _ _ hperm _
    exact hperm.nil_eq
  | cons a s' ih =>
    intro t hs ht hperm hclass
    cases t with
    | nil => exact absurd hperm.symm.nil_eq (by simp)
    | cons b t' =>
      have hab : a = b := by
        have hamem : a ∈ b :: t' := hperm.subset (List.mem_cons_self a s')
        have hbmem : b ∈ a :: s' := hperm.symm.subset (List.mem_cons_self b t')
        by_cases heq : a = b
        · exact heq
        · have ha' : a ∈ t' := by
            rcases List.mem_cons.1 hamem with h | h
            · exact absurd h heq
            · exact h
          have hb' : b ∈ s' := by
            rcases List.mem_cons.1 hbmem with h | h
            · exact absurd h.symm heq
            · exact h
          have hba : posLE b a := (List.pairwise_cons.1 ht).1 a ha'
          have hab2 : posLE a b := (List.pairwise_cons.1 hs).1 b hb'
          have hkey : errKey a = errKey b := errKey_eq_of_posLE_both a b hab2 hba
          have h1 := hclass (errKey a)
          rw [List.filter_cons, List.filter_cons,
            if_pos (show decide (errKey a = errKey a) = true by simp),
            if_pos (show decide (errKey b = errKey a) = true by simp [hkey])] at h1
          injection h1
      subst hab
      have htail : s' = t' := by
        apply ih t' (List.Pairwise.of_cons hs) (List.Pairwise.of_cons ht)
          hperm.cons_inv
        intro k
        have h1 := hclass k
        rw [List.filter_cons, List.filter_cons] at h1
        by_cases hk : errKey a = k
        · rw [if_pos (show decide (errKey a = k) = true by simp [hk]),
            if_pos (show decide (errKey a = k) = true by simp [hk])] at h1
          injection h1
        · rwa [if_neg (show ¬decide (errKey a = k) = true by simp [hk]),
            if_neg (show ¬decide (errKey a = k) = true by simp [hk])] at h1
      rw [htail]

/-- Rebuilding a collector by folding `Add` routes the list into the error
and warning buckets, preserving order. -/
theorem foldl_Add_eq (l : List ValidationError) :
    ∀ es ws, l.foldl ErrorCollector.Add ⟨es, ws⟩ =
      ⟨es ++ l.filter isErrDiag, ws ++ l.filter (fun e => !isErrDiag e)⟩ := by
  induction l with
  | nil => intro es ws; simp
  | cons e t ih =>
    intro es ws
    simp only [List.foldl_cons, ErrorCollector.Add, List.filter_cons]
    by_cases he : e.level = ErrorLevel.error
    · rw [if_pos he]
      rw [ih]
      simp [isErrDiag, he]
    · rw [if_neg he]
      rw [ih]
      simp [isErrDiag, he]

/-- A permutation of a list whose elements are pairwise equal is that list
itself. -/
theorem perm_eq_of_elems_eq {α : Type} {l l' : List α}
    (hperm : l.Perm l') (hall : ∀ a ∈ l, ∀ b ∈ l, a = b) : l = l' := by
  cases l with
  | nil => exact hperm.nil_eq
  | cons x xs =>
    have hx : ∀ b ∈ x :: xs, b = x := fun b hb =>
      hall b hb x (List.mem_cons_self x xs)
    have hl : x :: xs = List.replicate (x :: xs).length x :=
      List.eq_replicate_of_mem hx
    have hx' : ∀ b ∈ l', b = x := fun b hb => hx b (hperm.symm.subset hb)
    have hl' : l' = List.replicate l'.length x := List.eq_replicate_of_mem hx'
    rw [hl, hl', hperm.length_eq]

/-- A list has at most one sorted arrangement once diagnostics with equal
(line, column, level) keys coincide: two sorted permutations of each other
whose elements are key-injective are equal. -/
theorem sorted_perm_eq_of_key_inj (s t : List ValidationError)
    (hs : s.Pairwise (fun a b => posLE a b)) (ht : t.Pairwise (fun a b => posLE a b))
    (hperm : s.Perm t)
    (hinj : ∀ a ∈ s, ∀ b ∈ s, errKey a = errKey b → a = b) : s = t := by
  apply eq_of_sorted_perm_classes s t hs ht hperm
  intro k
  apply perm_eq_of_elems_eq (hperm.filter _)
  intro a ha b hb
  have hak : errKey a = k := by
    have := List.of_mem_filter ha
    simpa using this
  have hbk : errKey b = k := by
    have := List.of_mem_filter hb
    simpa using this
  exact hinj a (List.mem_of_mem_filter ha) b (List.mem_of_mem_filter hb)
    (hak.trans hbk.symm)

/-- C4, as the source supports it: formatting without re-sorting renders
exactly the stored diagnostic list, so repeating it yields identical output;
every outcome the `sort.Slice` contract admits for `SortByPosition` rebuilds
the collector with both buckets sorted by (line, column, errors-first
severity) and equal as multisets to the corresponding input diagnostics,
leaving the source lines untouched; and a second sort is a no-op whenever no
two distinct diagnostics of the result share line, column and level.  The
original claim's unconditional stability and idempotence are not properties
of the program: `sort.Slice` documents no stability, so the order of tied
diagnostics is unspecified (see the separate counterexample theorem). -/
theorem C4_sort_contract_properties :
    (∀ r : ValidationResult, r.FormatAllNoSort = formatItems r.collector.All r.sourceLines) ∧
    (∀ r r' : ValidationResult, r.SortByPositionRel r' →
      (r'.collector.errors.Pairwise fun a b => posLE a b) ∧
      (r'.collector.warnings.Pairwise fun a b => posLE a b) ∧
      r'.collector.errors.Perm (r.collector.All.filter isErrDiag) ∧
      r'.collector.warnings.Perm (r.collector.All.filter (fun e => !isErrDiag e)) ∧
      r'.sourceLines = r.sourceLines) ∧
    (∀ r r1 r2 : ValidationResult,
      (∀ a ∈ r.collector.All, ∀ b ∈ r.collector.All, errKey a = errKey b → a = b) →
      r.SortByPositionRel r1 → r1.SortByPositionRel r2 → r2 = r1) := by
  have hbuckets : ∀ (a' : List ValidationError) (r : ValidationResult),
      ({ r with collector := a'.foldl ErrorCollector.Add NewErrorCollector }
          : ValidationResult).collector =
        ⟨a'.filter isErrDiag, a'.filter (fun e => !isErrDiag e)⟩ := by
    intro a' r
    show a'.foldl ErrorCollector.Add NewErrorCollector = _
    rw [show NewErrorCollector = (⟨[], []⟩ : ErrorCollector) from rfl, foldl_Add_eq]
    simp
  refine ⟨fun r => rfl, ?_, ?_⟩
  · intro r r' h
    obtain ⟨a', ⟨hp, hsort⟩, he⟩ := h
    have hc : r'.collector = ⟨a'.filter isErrDiag, a'.filter (fun e => !isErrDiag e)⟩ := by
      rw [he]
      exact hbuckets a' r
    refine ⟨?_, ?_, ?_, ?_, ?_⟩
    · rw [hc]
      exact List.Pairwise.sublist (List.filter_sublist a') hsort
    · rw [hc]
      exact List.Pairwise.sublist (List.filter_sublist a') hsort
    · rw [hc]
      exact hp.filter isErrDiag
    · rw [hc]
      exact hp.filter (fun e => !isErrDiag e)
    · rw [he]
  · intro r r1 r2 hinj h1 h2
    obtain ⟨a1, ⟨hp1, hs1⟩, he1⟩ := h1
    obtain ⟨a2, ⟨hp2, hs2⟩, he2⟩ := h2
    have hc1 : r1.collector = ⟨a1.filter isErrDiag, a1.filter (fun e => !isErrDiag e)⟩ := by
      rw [he1]
      exact hbuckets a1 r
    have hall1 : r1.collector.All =
        a1.filter isErrDiag ++ a1.filter (fun e => !isErrDiag e) := by
      rw [hc1]
      rfl
    have hp21 : a2.Perm a1 := by
      refine hp2.trans ?_
      rw [hall1]
      exact List.filter_append_perm isErrDiag a1
    have hinj1 : ∀ a ∈ a2, ∀ b ∈ a2, errKey a = errKey b → a = b := by
      intro a hma b hmb
      exact hinj a (hp1.subset (hp21.subset hma)) b (hp1.subset (hp21.subset hmb))
    have ha21 : a2 = a1 := sorted_perm_eq_of_key_inj a2 a1 hs2 hs1 hp21 hinj1
    have hupd : ∀ (x : ErrorCollector) (rr : ValidationResult), x = rr.collector →
        ({ rr with collector := x } : ValidationResult) = rr := by
      intro x rr h
      rw [h]
    have hcol : a1.foldl ErrorCollector.Add NewErrorCollector = r1.collector := by
      rw [he1]
    rw [he2, ha21]
    exact hupd _ _ hcol

/-- C4, the refuted part: the `sort.Slice` contract does not determine the
order of diagnostics tied on (line, column, level), so neither stability nor
unconditional idempotence follows from the code.  The two tied warnings are
equal under the comparator yet unequal as records, both orders of the pair
are compliant sort outcomes of the same list, and a compliant first sort
followed by a compliant second sort changes the rebuilt collector: sorting
twice need not be a no-op on the second call. -/
theorem C4_sort_unstable_counterexample :
    errKey c4wA = errKey c4wB ∧ c4wA ≠ c4wB ∧
    sortSliceSpec [c4wA, c4wB] [c4wA, c4wB] ∧
    sortSliceSpec [c4wA, c4wB] [c4wB, c4wA] ∧
    c4r0.SortByPositionRel c4r0 ∧ c4r0.SortByPositionRel c4r2 ∧ c4r2 ≠ c4r0 := by
  refine ⟨by decide, by decide,
    ⟨List.Perm.refl _, by decide⟩,
    ⟨List.Perm.swap c4wA c4wB [], by decide⟩,
    ⟨[c4wA, c4wB], ⟨List.Perm.refl _, by decide⟩, by decide⟩,
    ⟨[c4wB, c4wA], ⟨List.Perm.swap c4wA c4wB [], by decide⟩, by decide⟩,
    by decide⟩

/-- Witness for C4's sorted-rebuild and conditional-idempotence clauses at a
concrete two-diagnostic result whose keys are pairwise distinct. -/
theorem C4_sort_contract_properties_witness :
    (c4s1.collector.errors.Pairwise fun a b => posLE a b) ∧
    (c4s1.collector.warnings.Pairwise fun a b => posLE a b) ∧
    c4s1.collector.errors.Perm (c4s0.collector.All.filter isErrDiag) ∧
    c4s1.sourceLines = c4s0.sourceLines ∧
    c4s1 = c4s1 := by
  have h := C4_sort_contract_properties
  have hrel1 : c4s0.SortByPositionRel c4s1 :=
    ⟨[c4v1, c4v2], ⟨List.Perm.swap c4v2 c4v1 [], by decide⟩, by decide⟩
  have hrel2 : c4s1.SortByPositionRel c4s1 :=
    ⟨[c4v1, c4v2], ⟨List.Perm.swap c4v2 c4v1 [], by decide⟩, by decide⟩
  have hb := h.2.1 c4s0 c4s1 hrel1
  have hc := h.2.2 c4s0 c4s1 c4s1 (by decide) hrel1 hrel2
  exact ⟨hb.1, hb.2.1, hb.2.2.1, hb.2.2.2.2, hc⟩

end YamlValidator
